import Mathlib

/-!
# libaacs: unit decryption, key derivation, the key database lookup and the MKB record scan

A shallow embedding of `src/libaacs/aacs.c` and `src/libaacs/mkb.c`.

* Bytes are natural numbers; a buffer is a `List Nat`; reading index `i` of a
  buffer is `List.getD buf i 0`.
* `uint32_t` arithmetic is written with an explicit `% 2 ^ 32`, `size_t`
  arithmetic with `% 2 ^ 64`; unsigned subtraction is `usub`.
* libgcrypt (AES-128 in ECB and CBC mode) is an external library: the cipher is
  a parameter `Gcrypt` of every function that calls it.
* A C call either returns, or reads through an invalid pointer, or never comes
  back; the last case is modelled with a step budget (`fuel`).
-/

namespace Aacs

/-! ## Outcomes -/

/-- Outcome of a modelled C call: it returns a value, it dereferences an invalid
pointer (undefined behaviour), or it has not returned within the step budget. -/
inductive Res (α : Type) where
  | ret (a : α)
  | fault
  | nofuel
deriving DecidableEq, Repr

/-! ## External collaborators -/

/-- The libgcrypt calls used by the library, on 16-byte keys:
`ecb_encrypt key block`, `ecb_decrypt key block`, `cbc_decrypt key iv data`.
Each call writes as many bytes as it is given. -/
structure Gcrypt where
  ecb_encrypt : List Nat → List Nat → List Nat
  ecb_decrypt : List Nat → List Nat → List Nat
  cbc_decrypt : List Nat → List Nat → List Nat → List Nat
  ecb_encrypt_length : ∀ k b, (ecb_encrypt k b).length = b.length
  ecb_decrypt_length : ∀ k b, (ecb_decrypt k b).length = b.length
  cbc_decrypt_length : ∀ k iv b, (cbc_decrypt k iv b).length = b.length

/-- Node of the processing-key list (`pk_list`): the key as a hex string, or NULL. -/
structure pk_entry where
  key : Option String
deriving DecidableEq, Repr

/-- Node of the host-certificate list (`cert_list`). -/
structure cert_entry where
  host_priv_key : Option String
  host_cert : Option String
  host_nonce : Option String
  host_key_point : Option String
deriving DecidableEq, Repr

/-- Node of the disc-entry list (`title_entry_list_t`); `uk` holds the `key` field
of each node of the entry's unit-key list. -/
structure title_entry where
  discid : Option String
  mek : Option String
  vid : Option String
  vuk : Option String
  uk : List (Option String)
deriving DecidableEq, Repr

/-- The parsed key database (`config_file_t`): its three linked lists. -/
structure config_file_t where
  pkl : List pk_entry
  host_cert_list : List cert_entry
  list : List title_entry
deriving DecidableEq, Repr

/-! ## Data model -/

/-- The session object, `struct aacs`. `uks = none` is the NULL pointer, `some b`
an allocation holding the bytes `b`; `cf = none` is a NULL config pointer.
(The cursor `ce` is only a local of `_find_config_entry`.) -/
structure AACS where
  session ::
  pk : List Nat
  mk : List Nat
  vuk : List Nat
  vid : List Nat
  uks : Option (List Nat)
  num_uks : Nat
  cf : Option config_file_t
deriving DecidableEq, Repr

/-- The all-zero key, `empty_key`. -/
def empty_key : List Nat := List.replicate 16 0

/-- `#define ALIGNED_UNIT_LEN 6144` -/
def ALIGNED_UNIT_LEN : Nat := 6144

/-- The fixed CBC initialisation vector of `_decrypt_unit`. -/
def unit_iv : List Nat :=
  [0x0b, 0xa0, 0xf8, 0xdd, 0xfe, 0xa6, 0x1f, 0xb3,
   0xd8, 0xdf, 0x9f, 0x56, 0x6a, 0x05, 0x0f, 0x78]

/-- The 8 bytes `_validate_pk` compares the decrypted verification data with. -/
def vd_magic : List Nat := [0x01, 0x23, 0x45, 0x67, 0x89, 0xAB, 0xCD, 0xEF]

/-- Read `n` bytes at offset `off` of an object; `none` when the read leaves it. -/
def read_bytes (mem : List Nat) (off n : Nat) : Option (List Nat) :=
  if off + n ≤ mem.length then some ((mem.drop off).take n) else none

/-- Unsigned subtraction `a - b` of two `w`-bit values: the difference modulo
`2 ^ w` (see `usub_eq_mod`). -/
def usub (w a b : Nat) : Nat := if b ≤ a then a - b else a + 2 ^ w - b

/-- The loop `for (a = 0; a < n; a++) dst[a + off] ^= src[a];`. -/
def xor_loop (dst src : List Nat) (off n : Nat) : List Nat :=
  (List.range n).foldl
    (fun d a => d.set (a + off) (d.getD (a + off) 0 ^^^ src.getD a 0)) dst

/-! ## `_validate_pk` (aacs.c) -/

/-- `_validate_pk(pk, cvalue, uv, vd, mk)`: the return value and the bytes left
in `mk` (written whether or not the key validates). -/
def _validate_pk (g : Gcrypt) (pk cvalue uv vd : List Nat) : Nat × List Nat :=
  let mk := g.ecb_decrypt pk cvalue
  let mk := xor_loop mk uv 12 4
  let dec_vd := g.ecb_decrypt mk vd
  if dec_vd.take 8 = vd_magic then (1, mk) else (0, mk)

/-! ## `_verify_ts` (aacs.c) -/

/-- Inner loop of `_verify_ts`: `for (ptr2 = ptr; ptr2 < buf + size; ptr2 += 192)`;
the result is the flag `failed`. Pointers are offsets into `buf`. -/
def verify_ts_inner (buf : List Nat) (size : Nat) : Nat → Nat → Bool
  | 0, _ => false
  | fuel + 1, ptr2 =>
    if ptr2 < size then
      if buf.getD ptr2 0 ≠ 0x47 then true
      else verify_ts_inner buf size fuel (ptr2 + 192)
    else false

/-- Outer loop of `_verify_ts`: `for (ptr = buf; ptr < buf + 192; ptr++)`, whose
body ends with a second `ptr++`. -/
def verify_ts_outer (buf : List Nat) (size : Nat) : Nat → Nat → Nat
  | 0, _ => 0
  | fuel + 1, ptr =>
    if ptr < 192 then
      if buf.getD ptr 0 = 0x47 then
        if verify_ts_inner buf size size ptr = false then 1
        else verify_ts_outer buf size fuel (ptr + 1 + 1)
      else verify_ts_outer buf size fuel (ptr + 1 + 1)
    else 0

/-- `_verify_ts(buf, size)`. Both loops advance their pointer on every pass, so the
budgets `192` and `size` are never exhausted (`verify_ts_one_iff`). -/
def _verify_ts (buf : List Nat) (size : Nat) : Nat :=
  if size < 192 then 1 else verify_ts_outer buf size 192 0

/-! ## `_decrypt_unit` and `aacs_decrypt_unit` (aacs.c) -/

/-- `_decrypt_unit(aacs, out_buf, in_buf, curr_uk)`: the return value and the
content of `out_buf`. The recursive call passes `curr_uk++`, whose value is the
old `curr_uk`. `fuel` bounds the number of activations. -/
def _decrypt_unit (g : Gcrypt) (aacs : AACS) (in_buf : List Nat) :
    Nat → Nat → Res (Nat × List Nat)
  | 0, _ => Res.nofuel
  | fuel + 1, curr_uk =>
    match aacs.uks with
    | none => Res.fault
    | some uks =>
      match read_bytes uks ((curr_uk * 16) % 2 ^ 32) 16 with
      | none => Res.fault
      | some uk =>
        let key := g.ecb_encrypt uk (in_buf.take 16)
        let key := xor_loop key in_buf 0 16
        let out_buf := in_buf.take 16 ++
          g.cbc_decrypt key unit_iv ((in_buf.drop 16).take (ALIGNED_UNIT_LEN - 16))
        if _verify_ts out_buf ALIGNED_UNIT_LEN ≠ 0 then Res.ret (1, out_buf)
        else if curr_uk < usub 32 aacs.num_uks 1 then
          _decrypt_unit g aacs in_buf fuel curr_uk
        else Res.ret (0, out_buf)

/-- The loop `for (i = 0; i < 6144; i += 192) buf[i] &= ~0xc0;` on bytes
(`~0xc0` keeps the low six bits of a `uint8_t`). -/
def clear_cpi_loop : Nat → Nat → List Nat → List Nat
  | 0, _, buf => buf
  | fuel + 1, i, buf =>
    if i < 6144 then
      clear_cpi_loop fuel (i + 192) (buf.set i (buf.getD i 0 &&& 0x3f))
    else buf

/-- `aacs_decrypt_unit(aacs, buf)`: the return value and the content of `buf`
afterwards. -/
def aacs_decrypt_unit (g : Gcrypt) (aacs : AACS) (buf : List Nat) (fuel : Nat) :
    Res (Nat × List Nat) :=
  if buf.getD 0 0 &&& 0xc0 = 0 then Res.ret (1, buf)
  else
    match _decrypt_unit g aacs buf fuel 0 with
    | Res.ret (r, out_buf) =>
      if r ≠ 0 then
        Res.ret (1, clear_cpi_loop 6144 0
          (out_buf.take ALIGNED_UNIT_LEN ++ buf.drop ALIGNED_UNIT_LEN))
      else Res.ret (0, buf)
    | Res.fault => Res.fault
    | Res.nofuel => Res.nofuel

/-! ## The MKB record scan (mkb.c) -/

/-- The MKB object of mkb.h: the size of `MKB_RO.inf` and its content. -/
structure MKB where
  size : Nat
  buf : List Nat
deriving DecidableEq, Repr

/-- A `uint8_t *` into the MKB: `buf off` is `mkb->buf + off`, `null a` is the
address `NULL + a`. -/
inductive Ptr where
  | buf (off : Nat)
  | null (addr : Nat)
deriving DecidableEq, Repr

/-- Pointer arithmetic `p + n`. -/
def Ptr.add : Ptr → Nat → Ptr
  | Ptr.buf off, n => Ptr.buf (off + n)
  | Ptr.null a, n => Ptr.null ((a + n) % 2 ^ 64)

/-- Pointer comparison `p < q` of two pointers derived from the same base. -/
def Ptr.lt : Ptr → Ptr → Bool
  | Ptr.buf a, Ptr.buf b => decide (a < b)
  | Ptr.null a, Ptr.null b => decide (a < b)
  | _, _ => false

/-- Read `n` bytes through a pointer: `none` when the pointer is not into the MKB
buffer or the read leaves it. -/
def Ptr.read (mkb : MKB) : Ptr → Nat → Option (List Nat)
  | Ptr.buf off, n => read_bytes mkb.buf off n
  | Ptr.null _, _ => none

/-- Modelled from the spec: the macro `MKINT_BE24` of util/macro.h, not among the
sources; section 4.1 reads the record length as a big-endian 24-bit integer. -/
def MKINT_BE24 (x : List Nat) : Nat :=
  x.getD 0 0 * 65536 + x.getD 1 0 * 256 + x.getD 2 0

/-- The loop of `_record`, entered with the current `pos` and `len`. `rec_len` is
`none` for a NULL `rec_len` pointer and `some v` for a pointer to a variable holding
`v`; the second component of the result is that variable afterwards. -/
def record_loop (mkb : MKB) (type : Nat) :
    Nat → Nat → Nat → Option Nat → Res (Ptr × Option Nat)
  | 0, _, _, _ => Res.nofuel
  | fuel + 1, pos, len, rec_len =>
    if (pos + 4) % 2 ^ 64 ≤ len then
      match read_bytes mkb.buf (pos + 1) 3, read_bytes mkb.buf pos 1 with
      | some x, some t =>
        let len := MKINT_BE24 x
        let rec_len := rec_len.map (fun _ => len)
        if t.getD 0 0 = type then Res.ret (Ptr.buf pos, rec_len)
        else record_loop mkb type fuel ((pos + len) % 2 ^ 64) len rec_len
      | _, _ => Res.fault
    else Res.ret (Ptr.null 0, rec_len)

/-- `_record(mkb, type, rec_len)`: `size_t pos = 0, len = 0;` and the loop. -/
def _record (mkb : MKB) (type : Nat) (rec_len : Option Nat) (fuel : Nat) :
    Res (Ptr × Option Nat) :=
  record_loop mkb type fuel 0 0 rec_len

/-- `mkb_subdiff_records(mkb, &len)`, `len` holding `len0` on entry: the returned
pointer and `len` afterwards. -/
def mkb_subdiff_records (mkb : MKB) (len0 fuel : Nat) : Res (Ptr × Nat) :=
  match _record mkb 0x04 (some len0) fuel with
  | Res.ret (p, l) => Res.ret (p.add 4, usub 64 (l.getD len0) 4)
  | Res.fault => Res.fault
  | Res.nofuel => Res.nofuel

/-- `mkb_cvalues(mkb, &len)`, `len` holding `len0` on entry. -/
def mkb_cvalues (mkb : MKB) (len0 fuel : Nat) : Res (Ptr × Nat) :=
  match _record mkb 0x05 (some len0) fuel with
  | Res.ret (p, l) => Res.ret (p.add 4, usub 64 (l.getD len0) 4)
  | Res.fault => Res.fault
  | Res.nofuel => Res.nofuel

/-- `mkb_mk_dv(mkb)`. -/
def mkb_mk_dv (mkb : MKB) (fuel : Nat) : Res Ptr :=
  match _record mkb 0x81 none fuel with
  | Res.ret (p, _) => Res.ret (p.add 4)
  | Res.fault => Res.fault
  | Res.nofuel => Res.nofuel

/-! ## `_calc_mk` (aacs.c) -/

/-- The UV-counting loop of `_calc_mk`:
`while (rec < uvs + len) { if (rec[0] & 0xc0) break; rec += 5; num_uvs++; }`. -/
def count_uvs (mkb : MKB) (uvs : Ptr) (len : Nat) : Nat → Ptr → Nat → Res Nat
  | 0, _, _ => Res.nofuel
  | fuel + 1, rec, num_uvs =>
    if Ptr.lt rec (uvs.add len) = true then
      match rec.read mkb 1 with
      | none => Res.fault
      | some b =>
        if b.getD 0 0 &&& 0xc0 ≠ 0 then Res.ret num_uvs
        else count_uvs mkb uvs len fuel (rec.add 5) (num_uvs + 1)
    else Res.ret num_uvs

/-- The loop `for (a = 0; a < num_uvs; a++)` of `_calc_mk` for one processing key:
the first argument counts the passes left, the result is whether a pair validated
and the content of `aacs->mk`. -/
def try_uvs (g : Gcrypt) (mkb : MKB) (pk : List Nat) (rec uvs : Ptr) (fuel : Nat) :
    Nat → Nat → List Nat → Res (Nat × List Nat)
  | 0, _, mk => Res.ret (0, mk)
  | n + 1, a, _ =>
    match mkb_mk_dv mkb fuel with
    | Res.ret vdp =>
      match (rec.add (a * 16)).read mkb 16, (uvs.add (1 + a * 5)).read mkb 4,
          vdp.read mkb 16 with
      | some cvalue, some uv, some vd =>
        if (_validate_pk g pk cvalue uv vd).1 ≠ 0 then
          Res.ret (1, (_validate_pk g pk cvalue uv vd).2)
        else try_uvs g mkb pk rec uvs fuel n (a + 1) (_validate_pk g pk cvalue uv vd).2
      | _, _, _ => Res.fault
    | Res.fault => Res.fault
    | Res.nofuel => Res.nofuel

/-- The walk `while (pkcursor && pkcursor->key)` of `_calc_mk`. `hex size s` stands
for `hexstring_to_hex_array(dst, size, s)` of util/strutl, not among the sources. -/
def pk_walk (g : Gcrypt) (hex : Nat → String → List Nat) (mkb : MKB) (rec uvs : Ptr)
    (num_uvs fuel : Nat) : List pk_entry → AACS → Res (Nat × AACS)
  | [], aacs => Res.ret (0, aacs)
  | e :: rest, aacs =>
    match e.key with
    | none => Res.ret (0, aacs)
    | some key =>
      match try_uvs g mkb (hex 16 key) rec uvs fuel num_uvs 0 aacs.mk with
      | Res.ret (r, mk) =>
        if r ≠ 0 then Res.ret (1, { aacs with pk := hex 16 key, mk := mk })
        else pk_walk g hex mkb rec uvs num_uvs fuel rest { aacs with pk := hex 16 key, mk := mk }
      | Res.fault => Res.fault
      | Res.nofuel => Res.nofuel

/-- `_calc_mk(aacs, path)`: the return value and the session afterwards. `mkbfile`
is the result of `mkb_open(path)` (`none` when the file cannot be opened) and `len0`
the content of the uninitialised local `len`. -/
def _calc_mk (g : Gcrypt) (hex : Nat → String → List Nat) (aacs : AACS)
    (mkbfile : Option MKB) (len0 fuel : Nat) : Res (Nat × AACS) :=
  if aacs.mk ≠ empty_key then Res.ret (1, aacs)
  else
    match mkbfile with
    | none => Res.ret (0, aacs)
    | some mkb =>
      match mkb_subdiff_records mkb len0 fuel with
      | Res.ret (uvs, len) =>
        match count_uvs mkb uvs len fuel uvs 0 with
        | Res.ret num_uvs =>
          match mkb_cvalues mkb len fuel with
          | Res.ret (rec, _) =>
            match aacs.cf with
            | none => Res.fault
            | some cf => pk_walk g hex mkb rec uvs num_uvs fuel cf.pkl aacs
          | Res.fault => Res.fault
          | Res.nofuel => Res.nofuel
        | Res.fault => Res.fault
        | Res.nofuel => Res.nofuel
      | Res.fault => Res.fault
      | Res.nofuel => Res.nofuel

/-- The body of the loop of `_calc_mk` with the result `vdp` of `mkb_mk_dv(mkb)`
given: `try_uvs` is this loop after the lookup (`try_uvs_eq`). -/
def try_uvs_at (g : Gcrypt) (mkb : MKB) (pk : List Nat) (rec uvs vdp : Ptr) :
    Nat → Nat → List Nat → Res (Nat × List Nat)
  | 0, _, mk => Res.ret (0, mk)
  | n + 1, a, _ =>
    match (rec.add (a * 16)).read mkb 16, (uvs.add (1 + a * 5)).read mkb 4,
        vdp.read mkb 16 with
    | some cvalue, some uv, some vd =>
      if (_validate_pk g pk cvalue uv vd).1 ≠ 0 then
        Res.ret (1, (_validate_pk g pk cvalue uv vd).2)
      else try_uvs_at g mkb pk rec uvs vdp n (a + 1) (_validate_pk g pk cvalue uv vd).2
    | _, _, _ => Res.fault

/-! ## `_calc_vuk` (aacs.c) -/

/-- The drive session of mmc.h, an external collaborator: `mmc priv_key cert nonce
key_point vid` is `none` when `mmc_open` returns NULL, and otherwise the return value
of `mmc_read_vid(mmc, vid)` with the content of the `vid` buffer afterwards. -/
def Mmc : Type :=
  List Nat → List Nat → List Nat → List Nat → List Nat → Option (Nat × List Nat)

/-- The walk `while (hccursor && hccursor->host_priv_key)` of `_calc_vuk`. A
credential whose certificate, nonce or key point is NULL makes the conversion read
through NULL. -/
def cert_walk (g : Gcrypt) (hex : Nat → String → List Nat) (mmc : Mmc) :
    List cert_entry → AACS → Res (Nat × AACS)
  | [], aacs => Res.ret (0, aacs)
  | c :: rest, aacs =>
    match c.host_priv_key with
    | none => Res.ret (0, aacs)
    | some priv =>
      match c.host_cert, c.host_nonce, c.host_key_point with
      | some cert, some nonce, some key_point =>
        match mmc (hex 20 priv) (hex 92 cert) (hex 20 nonce) (hex 40 key_point) aacs.vid with
        | none => cert_walk g hex mmc rest aacs
        | some (r, vid) =>
          if r ≠ 0 then
            Res.ret (1, { aacs with
              vid := vid, vuk := xor_loop (g.ecb_decrypt aacs.mk vid) vid 0 16 })
          else cert_walk g hex mmc rest { aacs with vid := vid }
      | _, _, _ => Res.fault

/-- `_calc_vuk(aacs, path)`: the return value and the session afterwards. -/
def _calc_vuk (g : Gcrypt) (hex : Nat → String → List Nat) (mmc : Mmc) (aacs : AACS) :
    Res (Nat × AACS) :=
  if aacs.vuk ≠ empty_key then Res.ret (1, aacs)
  else if aacs.vid ≠ empty_key then
    Res.ret (1, { aacs with vuk := xor_loop (g.ecb_decrypt aacs.mk aacs.vid) aacs.vid 0 16 })
  else
    match aacs.cf with
    | none => Res.fault
    | some cf => cert_walk g hex mmc cf.host_cert_list aacs

/-! ## `_calc_uks` (aacs.c) -/

/-- Modelled from the spec: the macro `MKINT_BE32` of util/macro.h, not among the
sources; section 4.7 reads the key-table offset as a big-endian 32-bit integer. -/
def MKINT_BE32 (x : List Nat) : Nat :=
  x.getD 0 0 * 16777216 + x.getD 1 0 * 65536 + x.getD 2 0 * 256 + x.getD 3 0

/-- Modelled from the spec: the macro `MKINT_BE16` of util/macro.h, not among the
sources; section 4.7 reads the key count as a big-endian 16-bit integer. -/
def MKINT_BE16 (x : List Nat) : Nat :=
  x.getD 0 0 * 256 + x.getD 1 0

/-- The file wrappers of file/file.h on a file of content `F`: `file_seek(fp, pos,
SEEK_SET)` followed by `file_read(fp, buf, n)` reads these bytes, fewer than `n` at
the end of the file. -/
def file_read_at (F : List Nat) (pos n : Nat) : List Nat := (F.drop pos).take n

/-- Store `data` at offset `off` of an allocation. -/
def write_bytes (mem : List Nat) (off : Nat) (data : List Nat) : List Nat :=
  mem.take off ++ data ++ mem.drop (off + data.length)

/-- The loop `for (i = 0; i < aacs->num_uks; i++)` of `_calc_uks`: `f_pos += 48`, seek,
read 16 bytes, and on a short read `aacs->num_uks = i; break;`. The result is
`num_uks` and the key array afterwards. (`f_pos` stays below `2 ^ 32 + 48 * 65536`,
so the `uint64_t` does not wrap.) -/
def read_keys (g : Gcrypt) (vuk F : List Nat) :
    Nat → Nat → Nat → Nat → List Nat → Nat × List Nat
  | 0, _, _, num_uks, uks => (num_uks, uks)
  | fuel + 1, i, f_pos, num_uks, uks =>
    if i < num_uks then
      if (file_read_at F (f_pos + 48) 16).length ≠ 16 then (i, uks)
      else
        read_keys g vuk F fuel (i + 1) (f_pos + 48) num_uks
          (write_bytes uks (16 * i) (g.ecb_decrypt vuk (file_read_at F (f_pos + 48) 16)))
    else (num_uks, uks)

/-- `calloc(n, 16)`: `n * 16` zero bytes; `null0` says whether `calloc(0, 16)` returns
NULL (the C standard leaves it to the implementation). -/
def calloc16 (null0 : Bool) (n : Nat) : Option (List Nat) :=
  if n = 0 ∧ null0 = true then none else some (List.replicate (n * 16) 0)

/-- `_calc_uks(aacs, path)`: the return value and the session afterwards. `file` is
the content of `Unit_Key_RO.inf`, `none` when it cannot be opened. -/
def _calc_uks (g : Gcrypt) (null0 : Bool) (aacs : AACS) (file : Option (List Nat)) :
    Nat × AACS :=
  if aacs.uks ≠ none then (1, aacs)
  else if aacs.vuk = empty_key then (0, aacs)
  else
    match file with
    | none => (0, aacs)
    | some F =>
      if (file_read_at F 0 4).length = 4 then
        let f_pos := MKINT_BE32 (file_read_at F 0 4)
        let aacs :=
          if (file_read_at F f_pos 2).length = 2 then
            { aacs with
              num_uks := MKINT_BE16 (file_read_at F f_pos 2),
              uks := calloc16 null0 (MKINT_BE16 (file_read_at F f_pos 2)) }
          else { aacs with num_uks := 0 }
        let r := read_keys g aacs.vuk F aacs.num_uks 0 f_pos aacs.num_uks (aacs.uks.getD [])
        (r.1, { aacs with num_uks := r.1, uks := aacs.uks.map (fun _ => r.2) })
      else (0, aacs)

/-! ## `_calc_title_hash` and `_find_config_entry` (aacs.c) -/

/-- `_calc_title_hash(path, title_hash)`: `none` when it returns 0 (the file cannot
be opened), otherwise the hash. `title_hash` stands for `crypto_aacs_title_hash` of
crypto.h (SHA-1), an external collaborator. -/
def _calc_title_hash (title_hash : List Nat → List Nat) (file : Option (List Nat)) :
    Option (List Nat) :=
  match file with
  | none => none
  | some F => some (title_hash F)

/-- The cursor `aacs->ce` after the loop `while (aacs->ce && aacs->ce->entry.discid)`
of `_find_config_entry`: `none` is NULL. -/
def find_entry (hex : Nat → String → List Nat) (hash : List Nat) :
    List title_entry → Option title_entry
  | [] => none
  | e :: rest =>
    match e.discid with
    | none => some e
    | some d => if hash = hex 20 d then some e else find_entry hex hash rest

/-- The walk `while (ukcursor && ukcursor->key_pair.key)` of `_find_config_entry`:
`num_uks++`, `realloc` to `16 * num_uks` bytes, convert the key into the last 16. -/
def uk_walk (hex : Nat → String → List Nat) : List (Option String) → AACS → AACS
  | [], aacs => aacs
  | none :: _, aacs => aacs
  | some key :: rest, aacs =>
    uk_walk hex rest
      { aacs with num_uks := aacs.num_uks + 1, uks := some (aacs.uks.getD [] ++ hex 16 key) }

/-- `_find_config_entry(aacs, path)`: the return value and the session afterwards.
After the scan the entry under the cursor is read without a NULL test. -/
def _find_config_entry (hex : Nat → String → List Nat) (title_hash : List Nat → List Nat)
    (aacs : AACS) (file : Option (List Nat)) : Res (Nat × AACS) :=
  let aacs := { aacs with uks := none, num_uks := 0 }
  match _calc_title_hash title_hash file with
  | none => Res.ret (0, aacs)
  | some hash =>
    match aacs.cf with
    | none => Res.ret (0, aacs)
    | some cf =>
      match find_entry hex hash cf.list with
      | none => Res.fault
      | some e =>
        let aacs := match e.mek with
          | some s => { aacs with mk := hex 16 s }
          | none => aacs
        let aacs := match e.vid with
          | some s => { aacs with vid := hex 16 s }
          | none => aacs
        let aacs := match e.vuk with
          | some s => { aacs with vuk := hex 16 s }
          | none => aacs
        let retval := if e.mek ≠ none ∨ e.vid ≠ none ∨ e.vuk ≠ none then 1 else 0
        let aacs := uk_walk hex e.uk aacs
        Res.ret (if aacs.num_uks ≠ 0 then aacs.num_uks else retval, aacs)

/-! ## `aacs_open` (aacs.c) -/

/-- `aacs_open(path, configfile_path)`: the session returned, `none` for NULL. `cfg`
is the key database read by `keydbcfg_parse_config` of file/keydbcfg.h, an external
collaborator; it is `none` when libgcrypt cannot be initialised, no config file is
found or the file does not parse, and the call returns NULL then. The session
starts from `calloc(1, sizeof(AACS))`. `ukfile` is the content of `Unit_Key_RO.inf`
and `mkbfile` the result of `mkb_open(path)`. -/
def aacs_open (g : Gcrypt) (hex : Nat → String → List Nat) (mmc : Mmc)
    (title_hash : List Nat → List Nat) (null0 : Bool) (cfg : Option config_file_t)
    (ukfile : Option (List Nat)) (mkbfile : Option MKB) (len0 fuel : Nat) :
    Res (Option AACS) :=
  match cfg with
  | none => Res.ret none
  | some cf =>
    match _find_config_entry hex title_hash
        { pk := empty_key, mk := empty_key, vuk := empty_key, vid := empty_key,
          uks := none, num_uks := 0, cf := some cf } ukfile with
    | Res.ret (found, aacs) =>
      if found ≠ 0 ∧ (_calc_uks g null0 aacs ukfile).1 ≠ 0 then
        Res.ret (some { (_calc_uks g null0 aacs ukfile).2 with cf := none })
      else
        match _calc_mk g hex (if found ≠ 0 then (_calc_uks g null0 aacs ukfile).2 else aacs)
            mkbfile len0 fuel with
        | Res.ret (have_mk, aacs) =>
          if have_mk ≠ 0 then
            match _calc_vuk g hex mmc aacs with
            | Res.ret (have_vuk, aacs) =>
              if have_vuk ≠ 0 then
                if (_calc_uks g null0 aacs ukfile).1 ≠ 0 then
                  Res.ret (some (_calc_uks g null0 aacs ukfile).2)
                else Res.ret none
              else Res.ret none
            | Res.fault => Res.fault
            | Res.nofuel => Res.nofuel
          else Res.ret none
        | Res.fault => Res.fault
        | Res.nofuel => Res.nofuel
    | Res.fault => Res.fault
    | Res.nofuel => Res.nofuel

/-! ## Reference definitions, written from the specification -/

/-- The 16-byte unit key at index `k` of the key array `uks`. -/
def unit_key (uks : List Nat) (k : Nat) : List Nat := (uks.drop (16 * k)).take 16

/-- Section 4.8, steps 1 to 3: the candidate plaintext of a unit under one unit
key. `derived_key = AES-ECB-encrypt(uk, buf[0..16]) XOR buf[0..16]`; the header
`buf[0..16]` is kept and the rest is CBC-decrypted under `derived_key` with the IV
`0B A0 F8 DD FE A6 1F B3 D8 DF 9F 56 6A 05 0F 78`. -/
def spec_unit_out (g : Gcrypt) (uk in_buf : List Nat) : List Nat :=
  let hdr := in_buf.take 16
  let derived_key := List.zipWith (fun x y => x ^^^ y) (g.ecb_encrypt uk hdr) hdr
  hdr ++ g.cbc_decrypt derived_key
    [0x0B, 0xA0, 0xF8, 0xDD, 0xFE, 0xA6, 0x1F, 0xB3, 0xD8, 0xDF, 0x9F, 0x56, 0x6A, 0x05,
      0x0F, 0x78]
    (in_buf.drop 16)

/-- Section 4.8, step 4: the candidate with the Copy Permission Indicator bits
cleared at every 192-byte packet boundary. -/
def spec_clear_cpi (out : List Nat) : List Nat :=
  (List.range out.length).map
    (fun i => if i % 192 = 0 then out.getD i 0 &&& 0x3F else out.getD i 0)

/-- Section 4.9: some offset `p` in `[0, 192)` carries the sync byte `0x47` at
`p, p + 192, p + 384, ...` while within bounds; shorter buffers pass. -/
def spec_ts_ok (buf : List Nat) (size : Nat) : Prop :=
  size < 192 ∨ ∃ p, p < 192 ∧ ∀ k, p + 192 * k < size → buf.getD (p + 192 * k) 0 = 0x47

/-- Section 4.4, step 2: `mk` with its last 4 bytes XORed with the UV. -/
def spec_xor_last4 (mk uv : List Nat) : List Nat :=
  mk.take 12 ++ List.zipWith (fun x y => x ^^^ y) (mk.drop 12) uv

/-- Section 4.7: the 16 bytes of the encrypted unit key `i` in a Unit Key file `F`
whose key table starts at `off`, at `off + 48 * (i + 1)`. -/
def spec_enc_uk (F : List Nat) (off i : Nat) : List Nat :=
  (F.drop (off + 48 * (i + 1))).take 16

/-- The unit keys a config entry provides: the keys of its list up to the first
node without one, in list order. -/
def spec_entry_keys : List (Option String) → List String
  | some k :: rest => k :: spec_entry_keys rest
  | _ => []

/-! ## Concrete inputs -/

/-- A stand-in for AES used to run the definitions on concrete inputs: ECB XORs
the block with the key, CBC XORs every byte with the first key byte. -/
def xor_cipher : Gcrypt where
  ecb_encrypt k b := (List.range b.length).map (fun i => b.getD i 0 ^^^ k.getD i 0)
  ecb_decrypt k b := (List.range b.length).map (fun i => b.getD i 0 ^^^ k.getD i 0)
  cbc_decrypt k _ b := b.map (fun x => x ^^^ k.getD 0 0)
  ecb_encrypt_length := by intros; simp
  ecb_decrypt_length := by intros; simp
  cbc_decrypt_length := by intros; simp

/-- An encrypted-flagged unit (`buf[0] = 0xC0`) with the sync byte at offset 4 of
every 192-byte packet and zeros elsewhere. -/
def unit_sync4 : List Nat :=
  (List.range 6144).map (fun i => if i = 0 then 0xC0 else if i % 192 = 4 then 0x47 else 0)

/-- A clear unit (`buf[0] = 0`) whose second packet has both CPI bits set. -/
def unit_clear : List Nat :=
  (List.range 6144).map (fun i => if i = 192 then 0xC0 else 0)

/-- A 6144-byte buffer with `0x47` at offset 1 of every 192-byte packet only. -/
def ts_odd : List Nat :=
  (List.range 6144).map (fun i => if i % 192 = 1 then 0x47 else 0)

/-- Three unit keys: first bytes 1, 2 and 0. -/
def three_keys : List Nat :=
  (1 :: List.replicate 15 0) ++ (2 :: List.replicate 15 0) ++ List.replicate 16 0

/-- A session holding `three_keys`. -/
def sess_three : AACS :=
  { pk := empty_key, mk := empty_key, vuk := empty_key, vid := empty_key,
    uks := some three_keys, num_uks := 3, cf := none }

/-- A session holding the single all-zero unit key. -/
def sess_one : AACS :=
  { pk := empty_key, mk := empty_key, vuk := empty_key, vid := empty_key,
    uks := some (List.replicate 16 0), num_uks := 1, cf := none }

/-- A session holding the single unit key `01 00 .. 00`. -/
def sess_one_bad : AACS :=
  { pk := empty_key, mk := empty_key, vuk := empty_key, vid := empty_key,
    uks := some (1 :: List.replicate 15 0), num_uks := 1, cf := none }

/-- A session with an allocated key array of 32 bytes and `num_uks = 0`: the shape
`_calc_uks` leaves when the file declares two keys and the first read is short. -/
def sess_zero : AACS :=
  { pk := empty_key, mk := empty_key, vuk := 1 :: List.replicate 15 0, vid := empty_key,
    uks := some (1 :: List.replicate 31 0), num_uks := 0, cf := none }

/-- A well-formed MKB: records `0x10` (12 bytes), `0x04` (one UV entry `00 01 02 03
04`), `0x05` (one all-zero c-value), `0x81` (verification data) and `0x02`, laid
end to end; 65 bytes. -/
def mkb_sample : MKB :=
  { size := 65,
    buf := [0x10, 0, 0, 0x0C, 0, 0, 0, 1, 0, 0, 0, 5] ++
      [0x04, 0, 0, 9, 0, 1, 2, 3, 4] ++
      ([0x05, 0, 0, 0x14] ++ List.replicate 16 0) ++
      ([0x81, 0, 0, 0x14] ++ vd_magic ++ [0, 0, 0, 0, 1, 2, 3, 4]) ++
      [0x02, 0, 0, 4] }

/-- A stand-in for `hexstring_to_hex_array`: every string converts to zero bytes. -/
def hex_zero (size : Nat) (_s : String) : List Nat := List.replicate size 0

/-- A session with no key material and a key database holding one processing key. -/
def sess_pk : AACS :=
  { pk := empty_key, mk := empty_key, vuk := empty_key, vid := empty_key,
    uks := none, num_uks := 0,
    cf := some { pkl := [{ key := some "00000000000000000000000000000000" }],
                 host_cert_list := [], list := [] } }

/-- An MKB whose record `0x04` holds two UV entries and whose record `0x05` holds a
single 16-byte c-value, followed by record `0x81` (all-zero verification data) and
record `0x02`; 58 bytes. The UV payload is at offset 4 (10 bytes), the c-value
payload at offset 18 (16 bytes), the verification data at offset 38. -/
def mkb_two_uvs : MKB :=
  { size := 58,
    buf := [0x04, 0, 0, 14, 0, 1, 2, 3, 4, 0, 5, 6, 7, 8] ++
      ([0x05, 0, 0, 20] ++ List.replicate 16 0) ++
      ([0x81, 0, 0, 20] ++ List.replicate 16 0) ++
      [0x02, 0, 0, 4] }

/-- A processing key that, with `xor_cipher`, validates against the 16 bytes that
follow the c-value payload of `mkb_two_uvs`. -/
def pk_two_uvs : List Nat :=
  [0x80, 0x23, 0x45, 0x73, 0x89, 0xAB, 0xCD, 0xEF, 0, 0, 0, 0, 0, 0, 0, 0]

/-- A stand-in for `hexstring_to_hex_array`: `size` bytes, each the length of the
string, so that strings of different lengths convert to different arrays. -/
def hex_len (size : Nat) (s : String) : List Nat := List.replicate size s.length

/-- A stand-in for `crypto_aacs_title_hash`: 20 bytes, each the length of the data. -/
def hash_len (F : List Nat) : List Nat := List.replicate 20 F.length

/-- A drive on which `mmc_open` always fails. -/
def mmc_none : Mmc := fun _ _ _ _ _ => none

/-- A session with `mk` and `vid` set and `vuk` unset. -/
def sess_vid : AACS :=
  { pk := empty_key, mk := 1 :: List.replicate 15 0, vuk := empty_key,
    vid := [16, 15, 14, 13, 12, 11, 10, 9, 8, 7, 6, 5, 4, 3, 2, 1],
    uks := none, num_uks := 0, cf := none }

/-- A session with `vuk = 01 00 .. 00` and no unit keys. -/
def sess_vuk : AACS :=
  { pk := empty_key, mk := empty_key, vuk := 1 :: List.replicate 15 0, vid := empty_key,
    uks := none, num_uks := 0, cf := none }

/-- A session with every key field set. -/
def sess_full : AACS :=
  { pk := empty_key, mk := 2 :: List.replicate 15 0, vuk := 1 :: List.replicate 15 0,
    vid := 3 :: List.replicate 15 0, uks := some (List.replicate 16 7), num_uks := 1,
    cf := none }

/-- The unit-key plaintext `E0 .. EF`. -/
def uk_e : List Nat := (List.range 16).map (fun i => 0xE0 + i)

/-- The unit-key plaintext `F0 .. FF`. -/
def uk_f : List Nat := (List.range 16).map (fun i => 0xF0 + i)

/-- A Unit Key file: `00 00 00 10`, 12 filler bytes, `00 02` at offset 0x10, padding
up to offset 0x10 + 48, then two 48-byte entries whose first 16 bytes are `uk_e` and
`uk_f` encrypted with `xor_cipher` under the key `01 00 .. 00`; 160 bytes. -/
def ukf_sample : List Nat :=
  [0, 0, 0, 0x10] ++ List.replicate 12 0xAA ++ [0, 2] ++ List.replicate 46 0 ++
    (xor_cipher.ecb_encrypt (1 :: List.replicate 15 0) uk_e ++ List.replicate 32 0) ++
    (xor_cipher.ecb_encrypt (1 :: List.replicate 15 0) uk_f ++ List.replicate 32 0)

/-- The same file cut after 100 bytes: it declares two keys and holds only the
first. -/
def ukf_short : List Nat := ukf_sample.take 100

/-- A disc entry that does not match a 3-byte Unit Key file under `hash_len`. -/
def entry_other : title_entry :=
  { discid := some "AA", mek := some "x", vid := none, vuk := none, uk := [some "kk"] }

/-- A disc entry that matches a 3-byte Unit Key file under `hash_len`: it provides
`mk`, `vuk` and two unit keys. -/
def entry_match : title_entry :=
  { discid := some "BBB", mek := some "m", vid := none, vuk := some "vvvv",
    uk := [some "k", some "kk", none] }

/-- The node that ends the entry list: no disc id and no key. -/
def entry_end : title_entry :=
  { discid := none, mek := none, vid := none, vuk := none, uk := [] }

/-- A session with no key material and a key database of the given disc entries. -/
def sess_cfg (entries : List title_entry) : AACS :=
  { pk := empty_key, mk := empty_key, vuk := empty_key, vid := empty_key,
    uks := none, num_uks := 0,
    cf := some { pkl := [], host_cert_list := [], list := entries } }

/-- Three unit keys whose first is all-zero. -/
def keys_zero_first_a : List Nat :=
  List.replicate 16 0 ++ (1 :: List.replicate 15 0) ++ (2 :: List.replicate 15 0)

/-- Three other unit keys with the same first key. -/
def keys_zero_first_b : List Nat :=
  List.replicate 16 0 ++ List.replicate 16 9 ++ List.replicate 16 8

/-- A session holding `keys_zero_first_a`. -/
def sess_zf_a : AACS :=
  { pk := empty_key, mk := empty_key, vuk := empty_key, vid := empty_key,
    uks := some keys_zero_first_a, num_uks := 3, cf := none }

/-- A session holding `keys_zero_first_b`. -/
def sess_zf_b : AACS :=
  { pk := empty_key, mk := empty_key, vuk := empty_key, vid := empty_key,
    uks := some keys_zero_first_b, num_uks := 3, cf := none }

/-- A Unit Key file cut right after its key count: `00 00 00 04`, then `00 01` at
offset 4. It declares one key and holds none. -/
def ukf_cut : List Nat := [0, 0, 0, 4, 0, 1]

/-- A disc entry that matches a 6-byte Unit Key file under `hash_len`: it provides
`mk` and `vuk` and no unit key. -/
def entry_mk_vuk : title_entry :=
  { discid := some "AAAAAA", mek := some "m", vid := none, vuk := some "vvvv", uk := [] }

/-- A key database holding `entry_mk_vuk` and the end node. -/
def cfg_mk_vuk : config_file_t :=
  { pkl := [], host_cert_list := [], list := [entry_mk_vuk, entry_end] }

/-- The session `aacs_open` builds from `cfg_mk_vuk` and `ukf_cut`: `mk` and `vuk`
from the key database, a zeroed key array of one slot and `num_uks = 0`. -/
def sess_no_keys : AACS :=
  { pk := empty_key, mk := List.replicate 16 1, vuk := List.replicate 16 4,
    vid := empty_key, uks := some (List.replicate 16 0), num_uks := 0,
    cf := some cfg_mk_vuk }

/-! ## Lemmas on buffers -/

/-- On `w`-bit operands `usub` is subtraction modulo `2 ^ w`. -/
theorem usub_eq_mod (w a b : Nat) (ha : a < 2 ^ w) (hb : b < 2 ^ w) :
    usub w a b = (a + 2 ^ w - b) % 2 ^ w := by
  unfold usub
  split
  · rename_i h
    have h1 : a + 2 ^ w - b = (a - b) + 2 ^ w := by omega
    rw [h1, Nat.add_mod_right, Nat.mod_eq_of_lt (by omega)]
  · rename_i h
    rw [Nat.mod_eq_of_lt (by omega)]

theorem list_eq_of_getD {l₁ l₂ : List Nat} (hlen : l₁.length = l₂.length)
    (h : ∀ i, i < l₁.length → l₁.getD i 0 = l₂.getD i 0) : l₁ = l₂ := by
  apply List.ext_getElem hlen
  intro i h1 h2
  have := h i h1
  simpa [List.getD_eq_getElem?_getD, List.getElem?_eq_getElem h1,
    List.getElem?_eq_getElem h2] using this

theorem getD_set_nat (l : List Nat) (i j v : Nat) :
    (l.set i v).getD j 0 = if i = j ∧ j < l.length then v else l.getD j 0 := by
  simp only [List.getD_eq_getElem?_getD, List.getElem?_set]
  by_cases hij : i = j
  · subst hij
    by_cases hl : i < l.length
    · simp [hl]
    · simp [hl, List.getElem?_eq_none (Nat.le_of_not_lt hl)]
  · simp [hij]

theorem getD_take_nat (l : List Nat) (n i : Nat) (h : i < n) :
    (l.take n).getD i 0 = l.getD i 0 := by
  simp [List.getD_eq_getElem?_getD, List.getElem?_take, h]

theorem getD_zipWith_xor (a b : List Nat) (i : Nat) (ha : i < a.length) (hb : i < b.length) :
    (List.zipWith (fun x y => x ^^^ y) a b).getD i 0 = a.getD i 0 ^^^ b.getD i 0 := by
  simp [List.getD_eq_getElem?_getD, List.getElem?_zipWith, List.getElem?_eq_getElem ha,
    List.getElem?_eq_getElem hb]

theorem xor_loop_succ (dst src : List Nat) (off n : Nat) :
    xor_loop dst src off (n + 1) =
      (xor_loop dst src off n).set (n + off)
        ((xor_loop dst src off n).getD (n + off) 0 ^^^ src.getD n 0) := by
  simp [xor_loop, List.range_succ]

theorem xor_loop_length (dst src : List Nat) (off n : Nat) :
    (xor_loop dst src off n).length = dst.length := by
  induction n with
  | zero => simp [xor_loop]
  | succ n ih => rw [xor_loop_succ, List.length_set, ih]

theorem xor_loop_getD (dst src : List Nat) (off n j : Nat) :
    (xor_loop dst src off n).getD j 0 =
      if off ≤ j ∧ j < off + n ∧ j < dst.length then dst.getD j 0 ^^^ src.getD (j - off) 0
      else dst.getD j 0 := by
  induction n with
  | zero =>
    have h1 : ¬ (off ≤ j ∧ j < off + 0 ∧ j < dst.length) := by omega
    rw [if_neg h1]
    simp [xor_loop]
  | succ n ih =>
    rw [xor_loop_succ, getD_set_nat, xor_loop_length]
    by_cases hj : n + off = j
    · subst hj
      by_cases hl : n + off < dst.length
      · have h1 : ¬ (off ≤ n + off ∧ n + off < off + n ∧ n + off < dst.length) := by omega
        have h2 : off ≤ n + off ∧ n + off < off + (n + 1) ∧ n + off < dst.length := by omega
        rw [ih, if_neg h1, if_pos ⟨rfl, hl⟩, if_pos h2]
        simp
      · have h1 : ¬ (off ≤ n + off ∧ n + off < off + n ∧ n + off < dst.length) := by omega
        have h2 : ¬ (off ≤ n + off ∧ n + off < off + (n + 1) ∧ n + off < dst.length) := by
          omega
        rw [ih, if_neg h1, if_neg (fun h => hl h.2), if_neg h2]
    · rw [if_neg (fun h => hj h.1), ih]
      by_cases hc : off ≤ j ∧ j < off + n ∧ j < dst.length
      · have h2 : off ≤ j ∧ j < off + (n + 1) ∧ j < dst.length := by omega
        rw [if_pos hc, if_pos h2]
      · have h2 : ¬ (off ≤ j ∧ j < off + (n + 1) ∧ j < dst.length) := by omega
        rw [if_neg hc, if_neg h2]

/-- The key-derivation loop of `_decrypt_unit` is the byte-wise XOR with the header. -/
theorem xor_loop_header (key in_buf : List Nat) (hk : key.length = 16)
    (hb : 16 ≤ in_buf.length) :
    xor_loop key in_buf 0 16 = List.zipWith (fun x y => x ^^^ y) key (in_buf.take 16) := by
  apply list_eq_of_getD
  · simp [xor_loop_length, hk, hb]
  · intro i hi
    rw [xor_loop_length, hk] at hi
    rw [xor_loop_getD, getD_zipWith_xor _ _ _ (by omega) (by simp; omega),
      getD_take_nat _ _ _ hi]
    simp [hi, hk]

/-- The UV loop of `_validate_pk` XORs the last four bytes of a 16-byte key. -/
theorem xor_loop_last4 (mk uv : List Nat) (hk : mk.length = 16) (hu : uv.length = 4) :
    xor_loop mk uv 12 4 = spec_xor_last4 mk uv := by
  apply list_eq_of_getD
  · simp [xor_loop_length, spec_xor_last4, hk, hu]
  · intro i hi
    rw [xor_loop_length, hk] at hi
    rw [xor_loop_getD, spec_xor_last4]
    simp only [List.getD_eq_getElem?_getD]
    by_cases h12 : i < 12
    · have h1 : ¬ (12 ≤ i ∧ i < 12 + 4 ∧ i < mk.length) := by omega
      rw [if_neg h1, List.getElem?_append_left (by simp; omega), List.getElem?_take]
      simp [h12]
    · have h1 : 12 ≤ i ∧ i < 12 + 4 ∧ i < mk.length := by omega
      rw [if_pos h1, List.getElem?_append_right (by simp; omega)]
      have hlen : (List.take 12 mk).length = 12 := by simp; omega
      rw [hlen, List.getElem?_zipWith]
      have ha : i - 12 < (List.drop 12 mk).length := by simp; omega
      have hb : i - 12 < uv.length := by omega
      rw [List.getElem?_eq_getElem ha, List.getElem?_eq_getElem hb,
        List.getElem?_eq_getElem (by omega : i < mk.length)]
      simp
      congr 2
      omega

/-! ## Lemmas on `aacs_decrypt_unit` -/

theorem clear_cpi_loop_length (fuel i : Nat) (buf : List Nat) :
    (clear_cpi_loop fuel i buf).length = buf.length := by
  induction fuel generalizing i buf with
  | zero => simp [clear_cpi_loop]
  | succ n ih =>
    simp only [clear_cpi_loop]
    split
    · rw [ih, List.length_set]
    · rfl

theorem clear_cpi_loop_getD (fuel i j : Nat) (buf : List Nat) :
    (clear_cpi_loop fuel i buf).getD j 0 =
      if i ≤ j ∧ j < 6144 ∧ (j - i) % 192 = 0 ∧ (j - i) / 192 < fuel ∧ j < buf.length
      then buf.getD j 0 &&& 0x3f else buf.getD j 0 := by
  induction fuel generalizing i buf with
  | zero =>
    have h1 : ¬ (i ≤ j ∧ j < 6144 ∧ (j - i) % 192 = 0 ∧ (j - i) / 192 < 0 ∧ j < buf.length) := by
      omega
    rw [if_neg h1]
    simp [clear_cpi_loop]
  | succ n ih =>
    simp only [clear_cpi_loop]
    by_cases hi : i < 6144
    · rw [if_pos hi, ih, List.length_set]
      by_cases hij : i = j
      · subst hij
        have h1 : ¬ (i + 192 ≤ i ∧ i < 6144 ∧ (i - (i + 192)) % 192 = 0 ∧
            (i - (i + 192)) / 192 < n ∧ i < buf.length) := by omega
        rw [if_neg h1, getD_set_nat]
        by_cases hl : i < buf.length
        · have h2 : i ≤ i ∧ i < 6144 ∧ (i - i) % 192 = 0 ∧ (i - i) / 192 < n + 1 ∧
              i < buf.length := by
            refine ⟨le_refl _, hi, ?_, ?_, hl⟩ <;> simp
          rw [if_pos ⟨rfl, hl⟩, if_pos h2]
        · rw [if_neg (fun h => hl h.2), if_neg (fun h => hl h.2.2.2.2)]
      · have hs : (buf.set i (buf.getD i 0 &&& 0x3f)).getD j 0 = buf.getD j 0 := by
          rw [getD_set_nat, if_neg (fun h => hij h.1)]
        rw [hs]
        by_cases hc : i + 192 ≤ j ∧ j < 6144 ∧ (j - (i + 192)) % 192 = 0 ∧
            (j - (i + 192)) / 192 < n ∧ j < buf.length
        · have h2 : i ≤ j ∧ j < 6144 ∧ (j - i) % 192 = 0 ∧ (j - i) / 192 < n + 1 ∧
              j < buf.length := by omega
          rw [if_pos hc, if_pos h2]
        · have h2 : ¬ (i ≤ j ∧ j < 6144 ∧ (j - i) % 192 = 0 ∧ (j - i) / 192 < n + 1 ∧
              j < buf.length) := by omega
          rw [if_neg hc, if_neg h2]
    · have h2 : ¬ (i ≤ j ∧ j < 6144 ∧ (j - i) % 192 = 0 ∧ (j - i) / 192 < n + 1 ∧
          j < buf.length) := by omega
      rw [if_neg hi, if_neg h2]

/-- On a 6144-byte buffer the CPI loop is the reference clearing of section 4.8. -/
theorem clear_cpi_loop_spec (out : List Nat) (h : out.length = 6144) :
    clear_cpi_loop 6144 0 out = spec_clear_cpi out := by
  apply list_eq_of_getD
  · simp [clear_cpi_loop_length, spec_clear_cpi]
  · intro i hi
    rw [clear_cpi_loop_length, h] at hi
    rw [clear_cpi_loop_getD, spec_clear_cpi]
    have hr : ((List.range out.length).map
        (fun i => if i % 192 = 0 then out.getD i 0 &&& 0x3F else out.getD i 0)).getD i 0 =
        if i % 192 = 0 then out.getD i 0 &&& 0x3F else out.getD i 0 := by
      rw [List.getD_eq_getElem?_getD, List.getElem?_map, List.getElem?_range (by omega)]
      simp
    rw [hr]
    by_cases hm : i % 192 = 0
    · have h2 : 0 ≤ i ∧ i < 6144 ∧ (i - 0) % 192 = 0 ∧ (i - 0) / 192 < 6144 ∧
          i < out.length := by omega
      rw [if_pos h2, if_pos hm]
    · have h2 : ¬ (0 ≤ i ∧ i < 6144 ∧ (i - 0) % 192 = 0 ∧ (i - 0) / 192 < 6144 ∧
          i < out.length) := by
        intro h3
        exact hm (by simpa using h3.2.2.1)
      rw [if_neg h2, if_neg hm]

theorem spec_unit_out_length (g : Gcrypt) (uk in_buf : List Nat)
    (h : in_buf.length = 6144) : (spec_unit_out g uk in_buf).length = 6144 := by
  simp [spec_unit_out, g.cbc_decrypt_length, h]

/-- One activation of `_decrypt_unit` at key index 0, in terms of the reference
candidate of section 4.8. -/
theorem decrypt_unit_step (g : Gcrypt) (aacs : AACS) (uks in_buf : List Nat) (fuel : Nat)
    (hu : aacs.uks = some uks) (hlen : 16 ≤ uks.length) (hb : in_buf.length = 6144) :
    _decrypt_unit g aacs in_buf (fuel + 1) 0 =
      if _verify_ts (spec_unit_out g (unit_key uks 0) in_buf) 6144 ≠ 0 then
        Res.ret (1, spec_unit_out g (unit_key uks 0) in_buf)
      else if 0 < usub 32 aacs.num_uks 1 then
        _decrypt_unit g aacs in_buf fuel 0
      else Res.ret (0, spec_unit_out g (unit_key uks 0) in_buf) := by
  have hr : read_bytes uks 0 16 = some (unit_key uks 0) := by
    simp [read_bytes, unit_key, hlen]
  have hk : xor_loop (g.ecb_encrypt (unit_key uks 0) (in_buf.take 16)) in_buf 0 16 =
      List.zipWith (fun x y => x ^^^ y) (g.ecb_encrypt (unit_key uks 0) (in_buf.take 16))
        (in_buf.take 16) := by
    apply xor_loop_header
    · simp [g.ecb_encrypt_length, hb]
    · omega
  have ht : (in_buf.drop 16).take (6144 - 16) = in_buf.drop 16 := by
    apply List.take_of_length_le
    simp [hb]
  simp only [_decrypt_unit, hu]
  simp only [Nat.zero_mul, Nat.zero_mod, hr, hk, ht, spec_unit_out, ALIGNED_UNIT_LEN,
    unit_iv]

/-- Every return of `_decrypt_unit` is 0 or 1, and 0 only when the retry guard
`curr_uk < num_uks - 1` (unsigned) is false. -/
theorem decrypt_unit_ret (g : Gcrypt) (aacs : AACS) (in_buf : List Nat) (fuel curr_uk r : Nat)
    (out : List Nat) (h : _decrypt_unit g aacs in_buf fuel curr_uk = Res.ret (r, out)) :
    r = 1 ∨ (r = 0 ∧ ¬ curr_uk < usub 32 aacs.num_uks 1) := by
  induction fuel with
  | zero => simp [_decrypt_unit] at h
  | succ n ih =>
    simp only [_decrypt_unit] at h
    split at h
    · simp at h
    · split at h
      · simp at h
      · split at h
        · simp only [Res.ret.injEq, Prod.mk.injEq] at h
          exact Or.inl h.1.symm
        · split at h
          · exact ih h
          · rename_i hg
            simp only [Res.ret.injEq, Prod.mk.injEq] at h
            exact Or.inr ⟨h.1.symm, hg⟩

theorem and_3f_c0 (x : Nat) : (x &&& 0x3f) &&& 0xC0 = 0 := by
  have h : (0x3f &&& 0xC0 : Nat) = 0 := by decide
  rw [Nat.land_assoc, h, Nat.and_zero]

/-- With the candidate under `uks[0]` rejected and the retry guard true, no
activation budget makes `_decrypt_unit` return. -/
theorem decrypt_unit_stuck (g : Gcrypt) (aacs : AACS) (uks in_buf : List Nat)
    (hu : aacs.uks = some uks) (hlen : 16 ≤ uks.length) (hb : in_buf.length = 6144)
    (hts : _verify_ts (spec_unit_out g (unit_key uks 0) in_buf) 6144 = 0)
    (hg : 0 < usub 32 aacs.num_uks 1) (fuel : Nat) :
    _decrypt_unit g aacs in_buf fuel 0 = Res.nofuel := by
  induction fuel with
  | zero => simp [_decrypt_unit]
  | succ n ih =>
    rw [decrypt_unit_step g aacs uks in_buf n hu hlen hb, if_neg (by simp [hts]), if_pos hg, ih]

/-- `xor_cipher` decrypts what it encrypts. -/
theorem xor_cipher_inv (k b : List Nat) :
    xor_cipher.ecb_decrypt k (xor_cipher.ecb_encrypt k b) = b := by
  apply list_eq_of_getD
  · simp [xor_cipher]
  · intro i hi
    have hi2 : i < b.length := by simpa [xor_cipher] using hi
    simp only [xor_cipher, List.getD_eq_getElem?_getD, List.length_map, List.length_range,
      List.getElem?_map, List.getElem?_range hi2, Option.map_some', Option.getD_some]
    rw [Nat.xor_assoc, Nat.xor_self, Nat.xor_zero]

theorem ts_odd_getD (i : Nat) (h : i < 6144) :
    ts_odd.getD i 0 = if i % 192 = 1 then 0x47 else 0 := by
  simp [ts_odd, List.getD_eq_getElem?_getD, List.getElem?_range h]

/-- Preflight of `aacs_decrypt_unit`: a unit whose first byte has no CPI bit set is
returned as it is. -/
theorem aacs_decrypt_unit_preflight (g : Gcrypt) (aacs : AACS) (buf : List Nat) (fuel : Nat)
    (h : buf.getD 0 0 &&& 0xC0 = 0) :
    aacs_decrypt_unit g aacs buf fuel = Res.ret (1, buf) := by
  unfold aacs_decrypt_unit
  rw [if_pos h]

/-- An encrypted unit whose candidate under `uks[0]` passes `_verify_ts` is replaced
by that candidate with the CPI bits cleared. -/
theorem aacs_decrypt_unit_accept (g : Gcrypt) (aacs : AACS) (uks in_buf : List Nat)
    (fuel : Nat) (hu : aacs.uks = some uks) (hk : 16 ≤ uks.length)
    (hb : in_buf.length = 6144) (he : in_buf.getD 0 0 &&& 0xC0 ≠ 0)
    (hts : _verify_ts (spec_unit_out g (unit_key uks 0) in_buf) 6144 = 1) :
    aacs_decrypt_unit g aacs in_buf (fuel + 1) =
      Res.ret (1, spec_clear_cpi (spec_unit_out g (unit_key uks 0) in_buf)) := by
  have hol := spec_unit_out_length g (unit_key uks 0) in_buf hb
  have hstep := decrypt_unit_step g aacs uks in_buf fuel hu hk hb
  rw [if_pos (by simp [hts])] at hstep
  have htk : List.take ALIGNED_UNIT_LEN (spec_unit_out g (unit_key uks 0) in_buf) ++
      List.drop ALIGNED_UNIT_LEN in_buf = spec_unit_out g (unit_key uks 0) in_buf := by
    rw [List.take_of_length_le (by simp [ALIGNED_UNIT_LEN, hol]),
      List.drop_of_length_le (by simp [ALIGNED_UNIT_LEN, hb]), List.append_nil]
  simp only [aacs_decrypt_unit, if_neg he, hstep]
  simp only [ne_eq, one_ne_zero, not_false_eq_true, if_true, htk]
  rw [clear_cpi_loop_spec _ hol]

/-! ## Lemmas on `_verify_ts` -/

/-- The inner loop of `_verify_ts`, given a budget that covers the buffer, reports
no failure exactly when every byte at `p, p + 192, ...` below `size` is `0x47`. -/
theorem verify_ts_inner_false_iff (buf : List Nat) (size : Nat) (fuel p : Nat)
    (hf : size ≤ p + 192 * fuel) :
    verify_ts_inner buf size fuel p = false ↔
      ∀ k, p + 192 * k < size → buf.getD (p + 192 * k) 0 = 0x47 := by
  induction fuel generalizing p with
  | zero =>
    simp only [verify_ts_inner, true_iff]
    intro k hk
    omega
  | succ n ih =>
    simp only [verify_ts_inner]
    by_cases hp : p < size
    · rw [if_pos hp]
      by_cases hb : buf.getD p 0 = 0x47
      · rw [if_neg (not_not.mpr hb), ih (p + 192) (by omega)]
        constructor
        · intro h k hk
          cases k with
          | zero => simpa using hb
          | succ j =>
            have := h j (by omega)
            have e : p + 192 * (j + 1) = p + 192 + 192 * j := by omega
            rw [e]
            exact this
        · intro h k hk
          have := h (k + 1) (by omega)
          have e : p + 192 * (k + 1) = p + 192 + 192 * k := by omega
          rw [e] at this
          exact this
      · rw [if_pos hb]
        constructor
        · intro h
          cases h
        · intro h
          exact absurd (by simpa using h 0 (by omega)) hb
    · rw [if_neg hp]
      constructor
      · intro _ k hk
        omega
      · intro _
        rfl

/-- The outer loop of `_verify_ts` started at offset `p` returns 1 exactly when one
of the offsets `p, p + 2, p + 4, ...` below 192 carries `0x47` and passes the inner
loop. -/
theorem verify_ts_outer_one_iff (buf : List Nat) (size : Nat) (fuel p : Nat) :
    verify_ts_outer buf size fuel p = 1 ↔
      ∃ j, j < fuel ∧ p + 2 * j < 192 ∧ buf.getD (p + 2 * j) 0 = 0x47 ∧
        verify_ts_inner buf size size (p + 2 * j) = false := by
  induction fuel generalizing p with
  | zero =>
    simp only [verify_ts_outer]
    constructor
    · intro h
      cases h
    · rintro ⟨j, hj, _⟩
      omega
  | succ n ih =>
    have step : (∃ j, j < n ∧ p + 1 + 1 + 2 * j < 192 ∧
        buf.getD (p + 1 + 1 + 2 * j) 0 = 0x47 ∧
        verify_ts_inner buf size size (p + 1 + 1 + 2 * j) = false) ↔
        ∃ j, 0 < j ∧ j < n + 1 ∧ p + 2 * j < 192 ∧ buf.getD (p + 2 * j) 0 = 0x47 ∧
          verify_ts_inner buf size size (p + 2 * j) = false := by
      constructor
      · rintro ⟨j, h1, h2, h3, h4⟩
        have e : p + 1 + 1 + 2 * j = p + 2 * (j + 1) := by omega
        rw [e] at h2 h3 h4
        exact ⟨j + 1, by omega, by omega, h2, h3, h4⟩
      · rintro ⟨j, h0, h1, h2, h3, h4⟩
        obtain ⟨i, rfl⟩ : ∃ i, j = i + 1 := ⟨j - 1, by omega⟩
        have e : p + 2 * (i + 1) = p + 1 + 1 + 2 * i := by omega
        rw [e] at h2 h3 h4
        exact ⟨i, by omega, h2, h3, h4⟩
    simp only [verify_ts_outer]
    by_cases hp : p < 192
    · rw [if_pos hp]
      by_cases hb : buf.getD p 0 = 0x47
      · rw [if_pos hb]
        by_cases hi : verify_ts_inner buf size size p = false
        · rw [if_pos hi]
          constructor
          · intro _
            exact ⟨0, by omega, by omega, by simpa using hb, by simpa using hi⟩
          · intro _
            rfl
        · rw [if_neg hi, ih (p + 1 + 1), step]
          constructor
          · rintro ⟨j, _, h1, h2, h3, h4⟩
            exact ⟨j, h1, h2, h3, h4⟩
          · rintro ⟨j, h1, h2, h3, h4⟩
            refine ⟨j, ?_, h1, h2, h3, h4⟩
            rcases Nat.eq_zero_or_pos j with h0 | h0
            · subst h0
              exact absurd (by simpa using h4) hi
            · exact h0
      · rw [if_neg hb, ih (p + 1 + 1), step]
        constructor
        · rintro ⟨j, _, h1, h2, h3, h4⟩
          exact ⟨j, h1, h2, h3, h4⟩
        · rintro ⟨j, h1, h2, h3, h4⟩
          refine ⟨j, ?_, h1, h2, h3, h4⟩
          rcases Nat.eq_zero_or_pos j with h0 | h0
          · subst h0
            exact absurd (by simpa using h3) hb
          · exact h0
    · rw [if_neg hp]
      constructor
      · intro h
        cases h
      · rintro ⟨j, _, h2, _⟩
        omega

/-- `_verify_ts` returns 1 exactly when the buffer is shorter than 192 bytes or some
even offset below 192 carries `0x47` at every 192-byte step; otherwise it returns 0. -/
theorem verify_ts_one_iff (buf : List Nat) (size : Nat) :
    _verify_ts buf size = 1 ↔
      size < 192 ∨ ∃ p, p < 192 ∧ p % 2 = 0 ∧
        ∀ k, p + 192 * k < size → buf.getD (p + 192 * k) 0 = 0x47 := by
  unfold _verify_ts
  by_cases hs : size < 192
  · simp [hs]
  · rw [if_neg hs, verify_ts_outer_one_iff]
    constructor
    · rintro ⟨j, _, h2, _, h4⟩
      rw [Nat.zero_add] at h2 h4
      exact Or.inr ⟨2 * j, h2, by omega,
        (verify_ts_inner_false_iff buf size size (2 * j) (by omega)).mp h4⟩
    · rintro (h | ⟨p, hp, he, h⟩)
      · exact absurd h hs
      · obtain ⟨j, rfl⟩ : ∃ j, p = 2 * j := ⟨p / 2, by omega⟩
        refine ⟨j, by omega, by omega, ?_, ?_⟩
        · have := h 0 (by omega)
          simpa using this
        · rw [Nat.zero_add]
          exact (verify_ts_inner_false_iff buf size size (2 * j) (by omega)).mpr h

theorem verify_ts_outer_01 (buf : List Nat) (size : Nat) (fuel p : Nat) :
    verify_ts_outer buf size fuel p = 0 ∨ verify_ts_outer buf size fuel p = 1 := by
  induction fuel generalizing p with
  | zero => exact Or.inl rfl
  | succ n ih =>
    simp only [verify_ts_outer]
    split
    · split
      · split
        · exact Or.inr rfl
        · exact ih _
      · exact ih _
    · exact Or.inl rfl

/-- `_verify_ts` returns 0 or 1. -/
theorem verify_ts_01 (buf : List Nat) (size : Nat) :
    _verify_ts buf size = 0 ∨ _verify_ts buf size = 1 := by
  unfold _verify_ts
  split
  · exact Or.inr rfl
  · exact verify_ts_outer_01 _ _ _ _

/-- Acceptance by `_verify_ts` implies the reference check of section 4.9. -/
theorem verify_ts_sound (buf : List Nat) (size : Nat) (h : _verify_ts buf size = 1) :
    spec_ts_ok buf size := by
  rcases (verify_ts_one_iff buf size).mp h with h1 | ⟨p, hp, _, hk⟩
  · exact Or.inl h1
  · exact Or.inr ⟨p, hp, hk⟩

/-! ## The MKB record scan and `_calc_mk` -/

/-- `_record` starts with `len = 0`, so its guard `pos + 4 <= len` fails on entry:
it returns NULL and leaves `*rec_len` as it was. -/
theorem record_returns_null (mkb : MKB) (type : Nat) (rec_len : Option Nat) (fuel : Nat) :
    _record mkb type rec_len (fuel + 1) = Res.ret (Ptr.null 0, rec_len) := by
  simp [_record, record_loop]

theorem record_no_budget (mkb : MKB) (type : Nat) (rec_len : Option Nat) :
    _record mkb type rec_len 0 = Res.nofuel := by
  simp [_record, record_loop]

/-- The UV count of `_calc_mk` from a pointer derived from NULL: the loop exits at
once with 0 or reads through the invalid pointer. -/
theorem count_uvs_null (mkb : MKB) (a len fuel n : Nat)
    (h : count_uvs mkb (Ptr.null a) len fuel (Ptr.null a) 0 = Res.ret n) : n = 0 := by
  cases fuel with
  | zero => simp [count_uvs] at h
  | succ k =>
    simp only [count_uvs, Ptr.read] at h
    split at h
    · simp at h
    · simp only [Res.ret.injEq] at h
      exact h.symm

/-- With no UV to try, the walk over the processing keys never reports success. -/
theorem pk_walk_no_uvs (g : Gcrypt) (hex : Nat → String → List Nat) (mkb : MKB)
    (rec uvs : Ptr) (fuel : Nat) (pkl : List pk_entry) (aacs : AACS) (r : Nat)
    (aacs' : AACS) (h : pk_walk g hex mkb rec uvs 0 fuel pkl aacs = Res.ret (r, aacs')) :
    r = 0 := by
  induction pkl generalizing aacs with
  | nil =>
    simp only [pk_walk, Res.ret.injEq, Prod.mk.injEq] at h
    exact h.1.symm
  | cons e rest ih =>
    simp only [pk_walk] at h
    split at h
    · simp only [Res.ret.injEq, Prod.mk.injEq] at h
      exact h.1.symm
    · simp only [try_uvs] at h
      exact ih _ h

theorem subdiff_records_null (mkb : MKB) (len0 fuel : Nat) :
    mkb_subdiff_records mkb len0 (fuel + 1) = Res.ret (Ptr.null 4, usub 64 len0 4) := by
  rw [mkb_subdiff_records, record_returns_null]
  rfl

theorem cvalues_null (mkb : MKB) (len0 fuel : Nat) :
    mkb_cvalues mkb len0 (fuel + 1) = Res.ret (Ptr.null 4, usub 64 len0 4) := by
  rw [mkb_cvalues, record_returns_null]
  rfl

/-- Whenever `_calc_mk` returns on a session whose `mk` is unset, it returns 0. -/
theorem calc_mk_returns_0 (g : Gcrypt) (hex : Nat → String → List Nat) (aacs : AACS)
    (mkbfile : Option MKB) (len0 fuel r : Nat) (aacs' : AACS) (hmk : aacs.mk = empty_key)
    (h : _calc_mk g hex aacs mkbfile len0 fuel = Res.ret (r, aacs')) : r = 0 := by
  unfold _calc_mk at h
  rw [if_neg (by simp [hmk])] at h
  cases mkbfile with
  | none =>
    simp only [Res.ret.injEq, Prod.mk.injEq] at h
    exact h.1.symm
  | some mkb =>
    cases fuel with
    | zero => simp [mkb_subdiff_records, record_no_budget] at h
    | succ k =>
      simp only [subdiff_records_null, cvalues_null] at h
      split at h
      · rename_i n hn
        have h0 := count_uvs_null _ _ _ _ _ hn
        subst h0
        split at h
        · cases h
        · exact pk_walk_no_uvs _ _ _ _ _ _ _ _ _ _ h
      · cases h
      · cases h

theorem try_uvs_eq (g : Gcrypt) (mkb : MKB) (pk : List Nat) (rec uvs vdp : Ptr) (fuel : Nat)
    (h : mkb_mk_dv mkb fuel = Res.ret vdp) :
    ∀ n a mk, try_uvs g mkb pk rec uvs fuel n a mk = try_uvs_at g mkb pk rec uvs vdp n a mk := by
  intro n
  induction n with
  | zero => intro a mk; rfl
  | succ n ih =>
    intro a mk
    simp only [try_uvs, try_uvs_at, h, ih]

theorem count_uvs_null_fault (mkb : MKB) (fuel : Nat) :
    count_uvs mkb (Ptr.null 4) (usub 64 100 4) (fuel + 1) (Ptr.null 4) 0 = Res.fault := by
  have hu : usub 64 100 4 = 96 := by decide
  have hl : Ptr.lt (Ptr.null 4) ((Ptr.null 4).add 96) = true := by decide
  rw [hu, count_uvs, if_pos hl]
  rfl

theorem calc_mk_null_uvs (g : Gcrypt) (hex : Nat → String → List Nat) (aacs : AACS)
    (mkb : MKB) (fuel : Nat) (hmk : aacs.mk = empty_key) :
    _calc_mk g hex aacs (some mkb) 100 (fuel + 1) = Res.fault := by
  simp only [_calc_mk, if_neg (not_not.mpr hmk), subdiff_records_null, count_uvs_null_fault]

/-! ## Lemmas on the unit-key retry -/

/-- A call of `_decrypt_unit` that returns has returned from its first activation. -/
theorem decrypt_unit_ret_first (g : Gcrypt) (aacs : AACS) (in_buf : List Nat)
    (fuel c : Nat) (r : Nat × List Nat)
    (h : _decrypt_unit g aacs in_buf fuel c = Res.ret r) :
    _decrypt_unit g aacs in_buf 1 c = Res.ret r := by
  induction fuel with
  | zero => simp [_decrypt_unit] at h
  | succ n ih =>
    simp only [_decrypt_unit] at h ⊢
    split
    · rename_i hu
      simp only [hu] at h
      cases h
    · rename_i uks hu
      simp only [hu] at h
      split
      · rename_i hr
        simp only [hr] at h
        cases h
      · rename_i uk hr
        simp only [hr] at h
        split
        · rename_i hv
          rw [if_pos hv] at h
          exact h
        · rename_i hv
          rw [if_neg hv] at h
          split
          · rename_i hg
            rw [if_pos hg] at h
            have h1 := ih h
            simp only [_decrypt_unit, hu, hr] at h1
            rw [if_neg hv, if_pos hg] at h1
            cases h1
          · rename_i hg
            rw [if_neg hg] at h
            exact h

/-- A call that returns from its first activation returns the same with any larger
budget. -/
theorem decrypt_unit_ret_more (g : Gcrypt) (aacs : AACS) (in_buf : List Nat)
    (fuel c : Nat) (r : Nat × List Nat)
    (h : _decrypt_unit g aacs in_buf 1 c = Res.ret r) :
    _decrypt_unit g aacs in_buf (fuel + 1) c = Res.ret r := by
  simp only [_decrypt_unit] at h ⊢
  split
  · rename_i hu
    simp only [hu] at h
    cases h
  · rename_i uks hu
    simp only [hu] at h
    split
    · rename_i hr
      simp only [hr] at h
      cases h
    · rename_i uk hr
      simp only [hr] at h
      split
      · rename_i hv
        rw [if_pos hv] at h
        exact h
      · rename_i hv
        rw [if_neg hv] at h
        split
        · rename_i hg
          rw [if_pos hg] at h
          cases h
        · rename_i hg
          rw [if_neg hg] at h
          exact h

/-- Two sessions with the same first unit key and the same `num_uks` give the same
outcome of `_decrypt_unit` at index 0, for every budget. -/
theorem decrypt_unit_first_key (g : Gcrypt) (a1 a2 : AACS) (u1 u2 in_buf : List Nat)
    (h1 : a1.uks = some u1) (h2 : a2.uks = some u2)
    (hk : read_bytes u1 0 16 = read_bytes u2 0 16) (hn : a1.num_uks = a2.num_uks)
    (fuel : Nat) :
    _decrypt_unit g a1 in_buf fuel 0 = _decrypt_unit g a2 in_buf fuel 0 := by
  induction fuel with
  | zero => simp [_decrypt_unit]
  | succ n ih =>
    simp only [_decrypt_unit, h1, h2, Nat.zero_mul, Nat.zero_mod, hk, hn, ih]

/-- A call of `aacs_decrypt_unit` that returns gives the same result with budget 1. -/
theorem aacs_decrypt_unit_ret_first (g : Gcrypt) (aacs : AACS) (buf : List Nat)
    (fuel : Nat) (r : Nat × List Nat)
    (h : aacs_decrypt_unit g aacs buf fuel = Res.ret r) :
    aacs_decrypt_unit g aacs buf 1 = Res.ret r := by
  unfold aacs_decrypt_unit at h ⊢
  split
  · rename_i hc
    rw [if_pos hc] at h
    exact h
  · rename_i hc
    rw [if_neg hc] at h
    cases hd : _decrypt_unit g aacs buf fuel 0 with
    | ret x =>
      rw [decrypt_unit_ret_first g aacs buf fuel 0 x hd]
      rw [hd] at h
      exact h
    | fault =>
      rw [hd] at h
      cases h
    | nofuel =>
      rw [hd] at h
      cases h

/-! ## Lemmas on `_calc_vuk` -/

/-- The fast path of `_calc_vuk`: `vuk` unset and `vid` set. -/
theorem calc_vuk_fast (g : Gcrypt) (hex : Nat → String → List Nat) (mmc : Mmc)
    (aacs : AACS) (hvuk : aacs.vuk = empty_key) (hvid : aacs.vid ≠ empty_key) :
    _calc_vuk g hex mmc aacs =
      Res.ret (1,
        { aacs with vuk := xor_loop (g.ecb_decrypt aacs.mk aacs.vid) aacs.vid 0 16 }) := by
  unfold _calc_vuk
  rw [if_neg (fun h => h hvuk), if_pos hvid]

/-- The XOR loop of `_calc_vuk` on a 16-byte `vid`, byte by byte. -/
theorem vuk_xor_getD (g : Gcrypt) (mk vid : List Nat) (hlen : vid.length = 16) (a : Nat)
    (ha : a < 16) :
    (xor_loop (g.ecb_decrypt mk vid) vid 0 16).getD a 0 =
      (g.ecb_decrypt mk vid).getD a 0 ^^^ vid.getD a 0 := by
  have hd : (g.ecb_decrypt mk vid).length = 16 := by
    rw [g.ecb_decrypt_length, hlen]
  rw [xor_loop_getD, if_pos ⟨Nat.zero_le a, by omega, by omega⟩, Nat.sub_zero]

/-! ## Lemmas on `_find_config_entry` -/

/-- The scan runs off the end of a list in which every node has a disc id that
differs from the hash. -/
theorem find_entry_none (hex : Nat → String → List Nat) (hash : List Nat)
    (l : List title_entry)
    (h : ∀ x ∈ l, ∃ d, x.discid = some d ∧ hash ≠ hex 20 d) :
    find_entry hex hash l = none := by
  induction l with
  | nil => rfl
  | cons x rest ih =>
    obtain ⟨d, hd, hne⟩ := h x (List.mem_cons_self _ _)
    simp only [find_entry, hd, if_neg hne]
    exact ih (fun y hy => h y (List.mem_cons_of_mem _ hy))

/-- The scan stops at the first node whose disc id equals the hash. -/
theorem find_entry_match (hex : Nat → String → List Nat) (hash : List Nat)
    (pre : List title_entry) (e : title_entry) (post : List title_entry) (d : String)
    (hpre : ∀ x ∈ pre, ∃ dx, x.discid = some dx ∧ hash ≠ hex 20 dx)
    (hd : e.discid = some d) (hm : hash = hex 20 d) :
    find_entry hex hash (pre ++ e :: post) = some e := by
  induction pre with
  | nil => simp only [List.nil_append, find_entry, hd, if_pos hm]
  | cons x rest ih =>
    obtain ⟨dx, hdx, hne⟩ := hpre x (List.mem_cons_self _ _)
    simp only [List.cons_append, find_entry, hdx, if_neg hne]
    exact ih (fun y hy => hpre y (List.mem_cons_of_mem _ hy))

/-- The walk over an entry's unit keys appends the converted keys in list order and
counts them. -/
theorem uk_walk_spec (hex : Nat → String → List Nat) (l : List (Option String))
    (aacs : AACS) :
    uk_walk hex l aacs =
      { aacs with
        num_uks := aacs.num_uks + (spec_entry_keys l).length,
        uks := if spec_entry_keys l = [] then aacs.uks
          else some (aacs.uks.getD [] ++ ((spec_entry_keys l).map (hex 16)).flatten) } := by
  induction l generalizing aacs with
  | nil => simp [uk_walk, spec_entry_keys]
  | cons k rest ih =>
    cases k with
    | none => simp [uk_walk, spec_entry_keys]
    | some key =>
      simp only [uk_walk, spec_entry_keys, ih]
      by_cases hr : spec_entry_keys rest = []
      · simp [hr]
      · simp [hr, Nat.add_assoc, Nat.add_comm 1]

/-- The outcome of `_find_config_entry` when the scan stops at entry `e`. -/
theorem find_config_entry_at (hex : Nat → String → List Nat) (th : List Nat → List Nat)
    (aacs : AACS) (cf : config_file_t) (F : List Nat) (e : title_entry)
    (hcf : aacs.cf = some cf) (hf : find_entry hex (th F) cf.list = some e) :
    _find_config_entry hex th aacs (some F) =
      Res.ret
        (if (spec_entry_keys e.uk).length ≠ 0 then (spec_entry_keys e.uk).length
          else if e.mek ≠ none ∨ e.vid ≠ none ∨ e.vuk ≠ none then 1 else 0,
         { aacs with
            mk := (e.mek.map (hex 16)).getD aacs.mk,
            vid := (e.vid.map (hex 16)).getD aacs.vid,
            vuk := (e.vuk.map (hex 16)).getD aacs.vuk,
            num_uks := (spec_entry_keys e.uk).length,
            uks := if spec_entry_keys e.uk = [] then none
              else some (((spec_entry_keys e.uk).map (hex 16)).flatten) }) := by
  simp only [_find_config_entry, _calc_title_hash, hcf, hf, uk_walk_spec]
  cases e.mek <;> cases e.vid <;> cases e.vuk <;> simp

/-! ## Lemmas on `_calc_uks` -/

theorem write_bytes_length (mem : List Nat) (off : Nat) (data : List Nat)
    (h : off + data.length ≤ mem.length) :
    (write_bytes mem off data).length = mem.length := by
  simp only [write_bytes, List.length_append, List.length_take, List.length_drop]
  omega

theorem unit_key_write_same (mem : List Nat) (i : Nat) (data : List Nat)
    (hd : data.length = 16) (h : 16 * i + 16 ≤ mem.length) :
    unit_key (write_bytes mem (16 * i) data) i = data := by
  have ht : (mem.take (16 * i)).length = 16 * i := by
    rw [List.length_take]; omega
  simp only [unit_key, write_bytes, List.append_assoc]
  rw [List.drop_left' ht, List.take_left' hd]

theorem unit_key_write_before (mem : List Nat) (i j : Nat) (data : List Nat)
    (hj : j < i) (h : 16 * i ≤ mem.length) :
    unit_key (write_bytes mem (16 * i) data) j = unit_key mem j := by
  have ht : (mem.take (16 * i)).length = 16 * i := by
    rw [List.length_take]; omega
  simp only [unit_key, write_bytes, List.append_assoc]
  rw [List.drop_append_of_le_length (by omega),
    List.take_append_of_le_length (by rw [List.length_drop]; omega),
    List.drop_take, List.take_take]
  congr 1
  omega

theorem read_keys_spec (g : Gcrypt) (vuk F : List Nat) (off n : Nat) :
    ∀ fuel i uks, i + fuel = n → uks.length = 16 * n →
      (read_keys g vuk F fuel i (off + 48 * i) n uks).1 ≤ n ∧
      i ≤ (read_keys g vuk F fuel i (off + 48 * i) n uks).1 ∧
      (∀ j, i ≤ j → j < (read_keys g vuk F fuel i (off + 48 * i) n uks).1 →
        off + 48 * (j + 1) + 16 ≤ F.length) ∧
      ((read_keys g vuk F fuel i (off + 48 * i) n uks).1 < n →
        ¬ off + 48 * ((read_keys g vuk F fuel i (off + 48 * i) n uks).1 + 1) + 16
          ≤ F.length) ∧
      (∀ j, i ≤ j → j < (read_keys g vuk F fuel i (off + 48 * i) n uks).1 →
        unit_key (read_keys g vuk F fuel i (off + 48 * i) n uks).2 j =
          g.ecb_decrypt vuk (spec_enc_uk F off j)) ∧
      (∀ j, j < i →
        unit_key (read_keys g vuk F fuel i (off + 48 * i) n uks).2 j = unit_key uks j) := by
  intro fuel
  induction fuel with
  | zero =>
    intro i uks hi _
    have hin : i = n := by omega
    subst hin
    rw [read_keys]
    exact ⟨Nat.le_refl _, Nat.le_refl _, fun j h1 h2 => absurd h2 (by omega),
      fun h => absurd h (Nat.lt_irrefl _), fun j h1 h2 => absurd h2 (by omega),
      fun _ _ => rfl⟩
  | succ fuel ih =>
    intro i uks hi hlen
    have hin : i < n := by omega
    have hrl : (file_read_at F (off + 48 * i + 48) 16).length = 16 ↔
        off + 48 * (i + 1) + 16 ≤ F.length := by
      simp only [file_read_at, List.length_take, List.length_drop]
      omega
    rw [read_keys, if_pos hin]
    by_cases hr : (file_read_at F (off + 48 * i + 48) 16).length ≠ 16
    · rw [if_pos hr]
      exact ⟨Nat.le_of_lt hin, Nat.le_refl _, fun j h1 h2 => absurd h2 (by omega),
        fun _ h => hr (hrl.mpr h), fun j h1 h2 => absurd h2 (by omega), fun _ _ => rfl⟩
    · rw [if_neg hr]
      have hr16 : (file_read_at F (off + 48 * i + 48) 16).length = 16 := not_not.mp hr
      have hdl : (g.ecb_decrypt vuk (file_read_at F (off + 48 * i + 48) 16)).length = 16 := by
        rw [g.ecb_decrypt_length, hr16]
      have hfp : off + 48 * i + 48 = off + 48 * (i + 1) := by omega
      have hlen2 : (write_bytes uks (16 * i)
          (g.ecb_decrypt vuk (file_read_at F (off + 48 * i + 48) 16))).length = 16 * n := by
        rw [write_bytes_length _ _ _ (by omega), hlen]
      have hrec := ih (i + 1) (write_bytes uks (16 * i)
          (g.ecb_decrypt vuk (file_read_at F (off + 48 * i + 48) 16))) (by omega) hlen2
      rw [← hfp] at hrec
      obtain ⟨h1, h2, h3, h4, h5, h6⟩ := hrec
      refine ⟨h1, by omega, ?_, h4, ?_, ?_⟩
      · intro j hj1 hj2
        by_cases hji : j = i
        · rw [hji]; exact hrl.mp hr16
        · exact h3 j (by omega) hj2
      · intro j hj1 hj2
        by_cases hji : j = i
        · rw [hji, h6 i (Nat.lt_succ_self i), unit_key_write_same _ _ _ hdl (by omega)]
          simp only [spec_enc_uk, file_read_at, hfp]
        · exact h5 j (by omega) hj2
      · intro j hj
        rw [h6 j (by omega), unit_key_write_before _ _ _ _ hj (by omega)]

theorem calc_uks_unfold (g : Gcrypt) (null0 : Bool) (aacs : AACS) (F : List Nat)
    (huks : aacs.uks = none) (hvuk : aacs.vuk ≠ empty_key) (hF : 4 ≤ F.length)
    (hcnt : MKINT_BE32 (F.take 4) + 2 ≤ F.length) :
    _calc_uks g null0 aacs (some F) =
      ((read_keys g aacs.vuk F (MKINT_BE16 ((F.drop (MKINT_BE32 (F.take 4))).take 2)) 0
          (MKINT_BE32 (F.take 4)) (MKINT_BE16 ((F.drop (MKINT_BE32 (F.take 4))).take 2))
          ((calloc16 null0 (MKINT_BE16 ((F.drop (MKINT_BE32 (F.take 4))).take 2))).getD [])).1,
       { aacs with
          num_uks := (read_keys g aacs.vuk F
            (MKINT_BE16 ((F.drop (MKINT_BE32 (F.take 4))).take 2)) 0
            (MKINT_BE32 (F.take 4)) (MKINT_BE16 ((F.drop (MKINT_BE32 (F.take 4))).take 2))
            ((calloc16 null0
              (MKINT_BE16 ((F.drop (MKINT_BE32 (F.take 4))).take 2))).getD [])).1,
          uks := (calloc16 null0 (MKINT_BE16 ((F.drop (MKINT_BE32 (F.take 4))).take 2))).map
            (fun _ => (read_keys g aacs.vuk F
              (MKINT_BE16 ((F.drop (MKINT_BE32 (F.take 4))).take 2)) 0
              (MKINT_BE32 (F.take 4)) (MKINT_BE16 ((F.drop (MKINT_BE32 (F.take 4))).take 2))
              ((calloc16 null0
                (MKINT_BE16 ((F.drop (MKINT_BE32 (F.take 4))).take 2))).getD [])).2) }) := by
  have h0 : file_read_at F 0 4 = F.take 4 := rfl
  have h4 : (F.take 4).length = 4 := by
    rw [List.length_take]; omega
  have h2e : file_read_at F (MKINT_BE32 (F.take 4)) 2 =
      (F.drop (MKINT_BE32 (F.take 4))).take 2 := rfl
  have h2 : ((F.drop (MKINT_BE32 (F.take 4))).take 2).length = 2 := by
    rw [List.length_take, List.length_drop]; omega
  unfold _calc_uks
  rw [if_neg (fun hne => hne huks), if_neg hvuk]
  simp only [h0, h2e, h4, h2, if_true]

theorem calloc16_pos (null0 : Bool) (n : Nat) (h : 0 < n) :
    calloc16 null0 n = some (List.replicate (n * 16) 0) := by
  unfold calloc16
  rw [if_neg (fun hh => absurd hh.1 (by omega))]

/-! ## Lemmas on the second `_calc_uks` call of `aacs_open` -/

theorem read_keys_none_read (g : Gcrypt) (vuk F : List Nat) (off n : Nat) (uks : List Nat)
    (hshort : 0 < n → ¬ off + 48 + 16 ≤ F.length) :
    read_keys g vuk F n 0 off n uks = (0, uks) := by
  cases n with
  | zero => rw [read_keys]
  | succ k =>
    have hr : (file_read_at F (off + 48) 16).length ≠ 16 := by
      simp only [file_read_at, List.length_take, List.length_drop]
      have := hshort (Nat.succ_pos k)
      omega
    rw [read_keys, if_pos (Nat.succ_pos k), if_pos hr]

theorem calloc16_some (null0 : Bool) (n : Nat) (h : 0 < n ∨ null0 = false) :
    calloc16 null0 n = some (List.replicate (n * 16) 0) := by
  unfold calloc16
  rw [if_neg]
  rintro ⟨h0, ht⟩
  rcases h with h | h
  · omega
  · rw [h] at ht
    cases ht

theorem calc_uks_none_read (g : Gcrypt) (null0 : Bool) (aacs : AACS) (F : List Nat)
    (off n : Nat) (huks : aacs.uks = none) (hvuk : aacs.vuk ≠ empty_key)
    (hF : 4 ≤ F.length) (hoff : off = MKINT_BE32 (F.take 4)) (hcnt : off + 2 ≤ F.length)
    (hn : n = MKINT_BE16 ((F.drop off).take 2)) (halloc : 0 < n ∨ null0 = false)
    (hshort : 0 < n → ¬ off + 48 + 16 ≤ F.length) :
    _calc_uks g null0 aacs (some F) =
      (0, { aacs with num_uks := 0, uks := some (List.replicate (n * 16) 0) }) := by
  have heq := calc_uks_unfold g null0 aacs F huks hvuk hF (by rw [← hoff]; exact hcnt)
  rw [← hoff, ← hn, calloc16_some null0 n halloc] at heq
  rw [heq]
  simp only [Option.getD_some, Option.map_some', read_keys_none_read g aacs.vuk F off n _ hshort]

theorem aacs_open_second_pass (g : Gcrypt) (hex : Nat → String → List Nat) (mmc : Mmc)
    (th : List Nat → List Nat) (null0 : Bool) (cf : config_file_t)
    (ukfile : Option (List Nat)) (mkbfile : Option MKB) (len0 fuel found : Nat)
    (a a' : AACS)
    (hfind : _find_config_entry hex th
      { pk := empty_key, mk := empty_key, vuk := empty_key, vid := empty_key,
        uks := none, num_uks := 0, cf := some cf } ukfile = Res.ret (found, a))
    (hfound : found ≠ 0) (h1 : _calc_uks g null0 a ukfile = (0, a'))
    (hmk : a'.mk ≠ empty_key) (hvuk : a'.vuk ≠ empty_key) (huks : a'.uks ≠ none) :
    aacs_open g hex mmc th null0 (some cf) ukfile mkbfile len0 fuel = Res.ret (some a') := by
  have hm : _calc_mk g hex a' mkbfile len0 fuel = Res.ret (1, a') := by
    unfold _calc_mk
    rw [if_pos hmk]
  have hv : _calc_vuk g hex mmc a' = Res.ret (1, a') := by
    unfold _calc_vuk
    rw [if_pos hvuk]
  have hu : _calc_uks g null0 a' ukfile = (1, a') := by
    unfold _calc_uks
    rw [if_pos huks]
  unfold aacs_open
  simp only [hfind, h1, if_pos hfound, hm, hv, hu]
  simp

/-! ## Facts about the concrete inputs -/

set_option maxRecDepth 100000

theorem unit_sync4_length : unit_sync4.length = 6144 := by simp [unit_sync4]

theorem unit_clear_length : unit_clear.length = 6144 := by simp [unit_clear]

theorem unit_sync4_encrypted : unit_sync4.getD 0 0 &&& 0xC0 ≠ 0 := by decide

/-- Under the all-zero unit key the candidate of `unit_sync4` passes `_verify_ts`. -/
theorem sync4_zero_key_passes :
    _verify_ts (spec_unit_out xor_cipher (List.replicate 16 0) unit_sync4) 6144 = 1 := by
  decide

/-- Under the unit key `01 00 .. 00` the candidate of `unit_sync4` fails `_verify_ts`. -/
theorem sync4_key1_fails :
    _verify_ts (spec_unit_out xor_cipher (1 :: List.replicate 15 0) unit_sync4) 6144 = 0 := by
  decide

/-- Under the unit key `02 00 .. 00` the candidate of `unit_sync4` fails `_verify_ts`. -/
theorem sync4_key2_fails :
    _verify_ts (spec_unit_out xor_cipher (2 :: List.replicate 15 0) unit_sync4) 6144 = 0 := by
  decide

theorem three_keys_0 : unit_key three_keys 0 = 1 :: List.replicate 15 0 := by decide

theorem three_keys_1 : unit_key three_keys 1 = 2 :: List.replicate 15 0 := by decide

theorem three_keys_2 : unit_key three_keys 2 = List.replicate 16 0 := by decide

theorem unit_sync4_getD (i : Nat) (h : i < 6144) :
    unit_sync4.getD i 0 = if i = 0 then 0xC0 else if i % 192 = 4 then 0x47 else 0 := by
  simp [unit_sync4, List.getD_eq_getElem?_getD, List.getElem?_range h]

theorem zf_a_first : read_bytes keys_zero_first_a 0 16 = some (List.replicate 16 0) := by
  decide

theorem zf_b_first : read_bytes keys_zero_first_b 0 16 = some (List.replicate 16 0) := by
  decide

theorem ukf_sample_length : ukf_sample.length = 160 := by
  simp [ukf_sample, xor_cipher, uk_e, uk_f]

/-! ## The claims -/

/-- C1 (clear unit). For every session and every buffer (of 6144 bytes or any other
length) whose first byte has both Copy Permission Indicator bits clear,
`aacs_decrypt_unit` returns 1 and leaves the buffer byte-identical, whatever the
other 31 packet headers hold. -/
theorem aacs_decrypt_unit_clear (g : Gcrypt) (aacs : AACS) (buf : List Nat) (fuel : Nat)
    (h : buf.getD 0 0 &&& 0xC0 = 0) :
    aacs_decrypt_unit g aacs buf fuel = Res.ret (1, buf) :=
  aacs_decrypt_unit_preflight g aacs buf fuel h

/-- Witness for C1: a clear unit whose second packet header has CPI bits set. -/
theorem aacs_decrypt_unit_clear_witness :
    (unit_clear.length = 6144 ∧ unit_clear.getD 0 0 &&& 0xC0 = 0) ∧
    aacs_decrypt_unit xor_cipher sess_three unit_clear 0 = Res.ret (1, unit_clear) :=
  ⟨⟨unit_clear_length, by decide⟩,
   aacs_decrypt_unit_clear xor_cipher sess_three unit_clear 0 (by decide)⟩

/-- C2 (success postcondition). For a session holding `num_uks >= 1` keys and an
encrypted 6144-byte unit, let `out` be the header followed by the CBC decryption of
the rest under `AES-ECB-encrypt(uks[0], in[0..16]) XOR in[0..16]`. If `out` passes
`_verify_ts`, then `aacs_decrypt_unit` returns 1 and the buffer is `out` with byte
`i` replaced by `out[i] & 0x3F` exactly at the multiples of 192. -/
theorem aacs_decrypt_unit_success (g : Gcrypt) (aacs : AACS) (uks in_buf : List Nat)
    (fuel : Nat) (hu : aacs.uks = some uks) (hn : 1 ≤ aacs.num_uks)
    (hk : 16 * aacs.num_uks ≤ uks.length) (hb : in_buf.length = 6144)
    (he : in_buf.getD 0 0 &&& 0xC0 ≠ 0)
    (hts : _verify_ts (spec_unit_out g (unit_key uks 0) in_buf) 6144 = 1) :
    ∃ buf', aacs_decrypt_unit g aacs in_buf (fuel + 1) = Res.ret (1, buf') ∧
      buf'.length = 6144 ∧
      ∀ i, i < 6144 → buf'.getD i 0 =
        if i % 192 = 0 then (spec_unit_out g (unit_key uks 0) in_buf).getD i 0 &&& 0x3F
        else (spec_unit_out g (unit_key uks 0) in_buf).getD i 0 := by
  have hol := spec_unit_out_length g (unit_key uks 0) in_buf hb
  refine ⟨spec_clear_cpi (spec_unit_out g (unit_key uks 0) in_buf), ?_, ?_, ?_⟩
  · exact aacs_decrypt_unit_accept g aacs uks in_buf fuel hu (by omega) hb he hts
  · simp [spec_clear_cpi, hol]
  · intro i hi
    rw [spec_clear_cpi, List.getD_eq_getElem?_getD, List.getElem?_map,
      List.getElem?_range (by omega)]
    simp

/-- Witness for C2: one all-zero unit key and a unit with the sync byte at offset 4
of every packet. -/
theorem aacs_decrypt_unit_success_witness :
    (sess_one.uks = some (List.replicate 16 0) ∧ 1 ≤ sess_one.num_uks ∧
      16 * sess_one.num_uks ≤ (List.replicate 16 0).length ∧ unit_sync4.length = 6144 ∧
      unit_sync4.getD 0 0 &&& 0xC0 ≠ 0 ∧
      _verify_ts (spec_unit_out xor_cipher (unit_key (List.replicate 16 0) 0) unit_sync4)
        6144 = 1) ∧
    ∃ buf', aacs_decrypt_unit xor_cipher sess_one unit_sync4 1 = Res.ret (1, buf') ∧
      buf'.length = 6144 ∧
      ∀ i, i < 6144 → buf'.getD i 0 =
        if i % 192 = 0 then
          (spec_unit_out xor_cipher (unit_key (List.replicate 16 0) 0) unit_sync4).getD i 0
            &&& 0x3F
        else (spec_unit_out xor_cipher (unit_key (List.replicate 16 0) 0) unit_sync4).getD i 0 :=
  ⟨⟨rfl, by decide, by decide, unit_sync4_length, unit_sync4_encrypted,
     sync4_zero_key_passes⟩,
   aacs_decrypt_unit_success xor_cipher sess_one (List.replicate 16 0) unit_sync4 0 rfl
     (by decide) (by decide) unit_sync4_length unit_sync4_encrypted sync4_zero_key_passes⟩

/-- C3 (fallback across unit keys), as the code behaves: when the candidate under
`uks[0]` fails `_verify_ts` and the session holds at least two keys, the retry
re-enters `_decrypt_unit` with the same index, so `aacs_decrypt_unit` has not
returned after any number of activations; a later key that would pass is never
tried. -/
theorem aacs_decrypt_unit_retry_stuck (g : Gcrypt) (aacs : AACS) (uks in_buf : List Nat)
    (hu : aacs.uks = some uks) (hn : 2 ≤ aacs.num_uks)
    (hk : 16 * aacs.num_uks ≤ uks.length) (hb : in_buf.length = 6144)
    (he : in_buf.getD 0 0 &&& 0xC0 ≠ 0)
    (hts : _verify_ts (spec_unit_out g (unit_key uks 0) in_buf) 6144 = 0) (fuel : Nat) :
    aacs_decrypt_unit g aacs in_buf fuel = Res.nofuel := by
  have hg : 0 < usub 32 aacs.num_uks 1 := by
    unfold usub
    split <;> omega
  have h := decrypt_unit_stuck g aacs uks in_buf hu (by omega) hb hts hg fuel
  simp only [aacs_decrypt_unit, if_neg he, h]

/-- Witness for C3: three unit keys of which only `uks[2]` yields a candidate that
passes `_verify_ts`; the call never returns. -/
theorem aacs_decrypt_unit_retry_stuck_witness :
    (sess_three.uks = some three_keys ∧ sess_three.num_uks = 3 ∧
      unit_sync4.length = 6144 ∧ unit_sync4.getD 0 0 &&& 0xC0 ≠ 0 ∧
      _verify_ts (spec_unit_out xor_cipher (unit_key three_keys 0) unit_sync4) 6144 = 0 ∧
      _verify_ts (spec_unit_out xor_cipher (unit_key three_keys 1) unit_sync4) 6144 = 0 ∧
      _verify_ts (spec_unit_out xor_cipher (unit_key three_keys 2) unit_sync4) 6144 = 1) ∧
    ∀ fuel, aacs_decrypt_unit xor_cipher sess_three unit_sync4 fuel = Res.nofuel :=
  ⟨⟨rfl, rfl, unit_sync4_length, unit_sync4_encrypted,
     by rw [three_keys_0]; exact sync4_key1_fails,
     by rw [three_keys_1]; exact sync4_key2_fails,
     by rw [three_keys_2]; exact sync4_zero_key_passes⟩,
   aacs_decrypt_unit_retry_stuck xor_cipher sess_three three_keys unit_sync4 rfl
     (by decide) (by decide) unit_sync4_length unit_sync4_encrypted
     (by rw [three_keys_0]; exact sync4_key1_fails)⟩

/-- C4 (failure atomicity). Whenever `aacs_decrypt_unit` returns 0 the buffer is
byte-identical to its input. -/
theorem aacs_decrypt_unit_failure_atomic (g : Gcrypt) (aacs : AACS) (buf : List Nat)
    (fuel r : Nat) (buf' : List Nat)
    (h : aacs_decrypt_unit g aacs buf fuel = Res.ret (r, buf')) (hr : r = 0) :
    buf' = buf := by
  subst hr
  unfold aacs_decrypt_unit at h
  split at h
  · simp at h
  · split at h
    · split at h
      · simp at h
      · simp only [Res.ret.injEq, Prod.mk.injEq, true_and] at h
        exact h.symm
    · simp at h
    · simp at h

/-- A single unit key whose candidate fails `_verify_ts`: the call returns 0 and the
buffer is the input. -/
theorem sess_one_bad_returns_0 :
    aacs_decrypt_unit xor_cipher sess_one_bad unit_sync4 1 = Res.ret (0, unit_sync4) := by
  have hstep := decrypt_unit_step xor_cipher sess_one_bad (1 :: List.replicate 15 0)
    unit_sync4 0 rfl (by decide) unit_sync4_length
  have hk : unit_key (1 :: List.replicate 15 0) 0 = 1 :: List.replicate 15 0 := by decide
  have hv : ¬ (_verify_ts (spec_unit_out xor_cipher (1 :: List.replicate 15 0) unit_sync4)
      6144 ≠ 0) := fun hne => hne sync4_key1_fails
  rw [hk, if_neg hv, if_neg (by decide)] at hstep
  simp only [aacs_decrypt_unit, if_neg unit_sync4_encrypted, hstep]
  simp

/-- Witness for C4: the failed candidate differs from the input, which is left as
it was. -/
theorem aacs_decrypt_unit_failure_atomic_witness :
    ∃ r buf', aacs_decrypt_unit xor_cipher sess_one_bad unit_sync4 1 = Res.ret (r, buf') ∧
      r = 0 ∧ buf' = unit_sync4 ∧
      spec_unit_out xor_cipher (1 :: List.replicate 15 0) unit_sync4 ≠ unit_sync4 :=
  ⟨0, unit_sync4, sess_one_bad_returns_0, rfl,
   aacs_decrypt_unit_failure_atomic xor_cipher sess_one_bad unit_sync4 1 0 unit_sync4
     sess_one_bad_returns_0 rfl,
   by
     intro h
     have h16 := congrArg (fun l => l.getD 16 0) h
     revert h16
     decide⟩

/-- C5, counterexample: a clear unit whose second packet header has both CPI bits
set is returned with success and those bits still set. -/
theorem aacs_decrypt_unit_cpi_counterexample :
    ∃ buf', aacs_decrypt_unit xor_cipher sess_one unit_clear 1 = Res.ret (1, buf') ∧
      buf'.length = 6144 ∧ buf'.getD 192 0 &&& 0xC0 ≠ 0 :=
  ⟨unit_clear, aacs_decrypt_unit_preflight xor_cipher sess_one unit_clear 1 (by decide),
   unit_clear_length, by decide⟩

/-- C5, amended (CPI clearing). If `aacs_decrypt_unit` returns success then byte 0 of
the buffer has both CPI bits clear, and if the input unit was encrypted
(`buf[0] & 0xC0 != 0`) then all 32 packet offsets `0, 192, ..., 5952` have them clear. -/
theorem aacs_decrypt_unit_cpi_cleared (g : Gcrypt) (aacs : AACS) (buf : List Nat)
    (fuel r : Nat) (buf' : List Nat)
    (h : aacs_decrypt_unit g aacs buf fuel = Res.ret (r, buf')) (hr : r ≠ 0) :
    buf'.getD 0 0 &&& 0xC0 = 0 ∧
      (buf.getD 0 0 &&& 0xC0 ≠ 0 → ∀ k, k < 32 → buf'.getD (192 * k) 0 &&& 0xC0 = 0) := by
  have key : ∀ (l : List Nat) (k : Nat), k < 32 →
      (clear_cpi_loop 6144 0 l).getD (192 * k) 0 &&& 0xC0 = 0 := by
    intro l k hk
    rw [clear_cpi_loop_getD]
    by_cases hl : 192 * k < l.length
    · have hc : 0 ≤ 192 * k ∧ 192 * k < 6144 ∧ (192 * k - 0) % 192 = 0 ∧
          (192 * k - 0) / 192 < 6144 ∧ 192 * k < l.length := by omega
      rw [if_pos hc, and_3f_c0]
    · rw [if_neg (fun hc => hl hc.2.2.2.2), List.getD_eq_default _ _ (by omega)]
      rfl
  unfold aacs_decrypt_unit at h
  split at h
  · rename_i hclear
    simp only [Res.ret.injEq, Prod.mk.injEq] at h
    rw [← h.2]
    exact ⟨hclear, fun hne => absurd hclear hne⟩
  · split at h
    · split at h
      · simp only [Res.ret.injEq, Prod.mk.injEq] at h
        rw [← h.2]
        exact ⟨by simpa using key _ 0 (by omega), fun _ k hk => key _ k hk⟩
      · simp only [Res.ret.injEq, Prod.mk.injEq] at h
        exact absurd h.1.symm hr
    · simp at h
    · simp at h

/-- Witness for C5 (amended): an encrypted unit decrypted under one unit key. -/
theorem aacs_decrypt_unit_cpi_cleared_witness :
    (aacs_decrypt_unit xor_cipher sess_one unit_sync4 1 =
        Res.ret (1, spec_clear_cpi
          (spec_unit_out xor_cipher (unit_key (List.replicate 16 0) 0) unit_sync4)) ∧
      (1 : Nat) ≠ 0 ∧ unit_sync4.getD 0 0 &&& 0xC0 ≠ 0) ∧
    ∀ k, k < 32 →
      (spec_clear_cpi (spec_unit_out xor_cipher (unit_key (List.replicate 16 0) 0)
        unit_sync4)).getD (192 * k) 0 &&& 0xC0 = 0 :=
  ⟨⟨aacs_decrypt_unit_accept xor_cipher sess_one (List.replicate 16 0) unit_sync4 0 rfl
      (by decide) unit_sync4_length unit_sync4_encrypted sync4_zero_key_passes,
    by decide, unit_sync4_encrypted⟩,
   (aacs_decrypt_unit_cpi_cleared xor_cipher sess_one unit_sync4 1 1 _
      (aacs_decrypt_unit_accept xor_cipher sess_one (List.replicate 16 0) unit_sync4 0 rfl
        (by decide) unit_sync4_length unit_sync4_encrypted sync4_zero_key_passes)
      (by decide)).2 unit_sync4_encrypted⟩

/-- C6 (no unit keys), as the code behaves: with `num_uks = 0` the unsigned guard
`curr_uk < num_uks - 1` is `0 < 0xFFFFFFFF`, so `aacs_decrypt_unit` never returns 0
for an encrypted unit: it returns 1, faults, or keeps retrying. -/
theorem aacs_decrypt_unit_no_keys (g : Gcrypt) (aacs : AACS) (buf : List Nat)
    (fuel : Nat) (buf' : List Nat) (hn : aacs.num_uks = 0)
    (he : buf.getD 0 0 &&& 0xC0 ≠ 0) :
    aacs_decrypt_unit g aacs buf fuel ≠ Res.ret (0, buf') := by
  intro h
  unfold aacs_decrypt_unit at h
  rw [if_neg he] at h
  split at h
  · rename_i r out hd
    rcases decrypt_unit_ret g aacs buf fuel 0 r out hd with h1 | ⟨_, h0⟩
    · subst h1
      simp at h
    · rw [hn] at h0
      exact h0 (by decide)
  · simp at h
  · simp at h

/-- With `num_uks = 0`, an allocated key array and a candidate that fails
`_verify_ts`, the call has not returned after any number of activations. -/
theorem sess_zero_never_returns (fuel : Nat) :
    aacs_decrypt_unit xor_cipher sess_zero unit_sync4 fuel = Res.nofuel := by
  have h := decrypt_unit_stuck xor_cipher sess_zero (1 :: List.replicate 31 0) unit_sync4 rfl
    (by decide) unit_sync4_length
    (by
      have hk : unit_key (1 :: List.replicate 31 0) 0 = 1 :: List.replicate 15 0 := by decide
      rw [hk]
      exact sync4_key1_fails)
    (by decide) fuel
  simp only [aacs_decrypt_unit, if_neg unit_sync4_encrypted, h]

/-- Witness for C6: the session `_calc_uks` leaves after a short read at index 0. -/
theorem aacs_decrypt_unit_no_keys_witness :
    (sess_zero.num_uks = 0 ∧ unit_sync4.getD 0 0 &&& 0xC0 ≠ 0) ∧
    aacs_decrypt_unit xor_cipher sess_zero unit_sync4 4 ≠ Res.ret (0, unit_sync4) ∧
    ∀ fuel, aacs_decrypt_unit xor_cipher sess_zero unit_sync4 fuel = Res.nofuel :=
  ⟨⟨rfl, unit_sync4_encrypted⟩,
   aacs_decrypt_unit_no_keys xor_cipher sess_zero unit_sync4 4 unit_sync4 rfl
     unit_sync4_encrypted,
   sess_zero_never_returns⟩

/-- C7 (transport-stream check against its reference), at a failing input: the
buffer with `0x47` at offset 1 of every packet satisfies the reference definition
(`p = 1`), and `_verify_ts` rejects it; so `_verify_ts` does not return 1 exactly
when the reference definition holds. -/
theorem verify_ts_rejects_odd_offset :
    ts_odd.length = 6144 ∧ spec_ts_ok ts_odd 6144 ∧ _verify_ts ts_odd 6144 = 0 ∧
      ¬ (∀ (buf : List Nat) (size : Nat), _verify_ts buf size = 1 ↔ spec_ts_ok buf size) := by
  have hspec : spec_ts_ok ts_odd 6144 := by
    refine Or.inr ⟨1, by decide, ?_⟩
    intro k hk
    rw [ts_odd_getD _ hk]
    have : (1 + 192 * k) % 192 = 1 := by omega
    simp [this]
  have hcode : _verify_ts ts_odd 6144 = 0 := by decide
  refine ⟨by simp [ts_odd], hspec, hcode, ?_⟩
  intro h
  have h1 := (h ts_odd 6144).mpr hspec
  rw [hcode] at h1
  exact absurd h1 (by decide)

/-- C8 (MKB record lookup), at a failing input: on the well-formed MKB
`10 00 00 0C 00 00 00 01 00 00 00 05 ...`, whose first record has type `0x10` and
length 12, `_record(0x10)` returns NULL and leaves `*rec_len` unwritten, for every
step budget and every prior content of `*rec_len`. -/
theorem record_misses_first_record :
    mkb_sample.buf.length = mkb_sample.size ∧
    read_bytes mkb_sample.buf 0 4 = some [0x10, 0, 0, 0x0C] ∧
    ∀ fuel v, _record mkb_sample 0x10 (some v) (fuel + 1) = Res.ret (Ptr.null 0, some v) :=
  ⟨by decide, by decide, fun fuel v => record_returns_null mkb_sample 0x10 (some v) fuel⟩

/-- C9 (processing-key validation). With `mk` the ECB decryption of `cvalue` under
`pk` whose bytes 12..15 are XORed with `uv[0..3]`: `_validate_pk` leaves that `mk` in
its output, returns 1 exactly when the first 8 bytes of the ECB decryption of `vd`
under `mk` are `01 23 45 67 89 AB CD EF`, and returns 0 otherwise. Consequently, when
decryption under `pk` inverts encryption, `cvalue = encrypt(pk, mk_trial)` and
`mk_trial XOR_last4 uv` decrypts `vd` to that prefix, the call returns 1 with
`mk = mk_trial XOR_last4 uv`. -/
theorem validate_pk_spec (g : Gcrypt) (pk cvalue uv vd : List Nat)
    (hc : cvalue.length = 16) (hu : uv.length = 4) :
    (_validate_pk g pk cvalue uv vd).2 = spec_xor_last4 (g.ecb_decrypt pk cvalue) uv ∧
    ((_validate_pk g pk cvalue uv vd).1 = 1 ↔
      (g.ecb_decrypt (spec_xor_last4 (g.ecb_decrypt pk cvalue) uv) vd).take 8 =
        [0x01, 0x23, 0x45, 0x67, 0x89, 0xAB, 0xCD, 0xEF]) ∧
    ((_validate_pk g pk cvalue uv vd).1 ≠ 1 → (_validate_pk g pk cvalue uv vd).1 = 0) ∧
    ((∀ b, b.length = 16 → g.ecb_decrypt pk (g.ecb_encrypt pk b) = b) →
      ∀ mk_trial, mk_trial.length = 16 → cvalue = g.ecb_encrypt pk mk_trial →
        (g.ecb_decrypt (spec_xor_last4 mk_trial uv) vd).take 8 =
          [0x01, 0x23, 0x45, 0x67, 0x89, 0xAB, 0xCD, 0xEF] →
        _validate_pk g pk cvalue uv vd = (1, spec_xor_last4 mk_trial uv)) := by
  have hx : xor_loop (g.ecb_decrypt pk cvalue) uv 12 4 =
      spec_xor_last4 (g.ecb_decrypt pk cvalue) uv :=
    xor_loop_last4 _ _ (by rw [g.ecb_decrypt_length, hc]) hu
  have hv : _validate_pk g pk cvalue uv vd =
      if (g.ecb_decrypt (spec_xor_last4 (g.ecb_decrypt pk cvalue) uv) vd).take 8 =
        [0x01, 0x23, 0x45, 0x67, 0x89, 0xAB, 0xCD, 0xEF]
      then (1, spec_xor_last4 (g.ecb_decrypt pk cvalue) uv)
      else (0, spec_xor_last4 (g.ecb_decrypt pk cvalue) uv) := by
    simp only [_validate_pk, hx, vd_magic]
  refine ⟨?_, ?_, ?_, ?_⟩
  · rw [hv]
    split <;> rfl
  · rw [hv]
    split
    · rename_i h
      simp [h]
    · rename_i h
      simp [h]
  · rw [hv]
    split
    · intro h
      exact absurd rfl h
    · intro _
      rfl
  · intro hinv mk_trial hm hcv hdec
    have hd : g.ecb_decrypt pk cvalue = mk_trial := by rw [hcv, hinv mk_trial hm]
    rw [hv, hd, if_pos hdec]

/-- Witness for C9: the all-zero processing key, `mk_trial` all zero, `uv = 01 02 03
04` and verification data that `mk_trial XOR_last4 uv` decrypts to the expected
prefix. -/
theorem validate_pk_spec_witness :
    ((List.replicate 16 0).length = 16 ∧ [1, 2, 3, 4].length = 4 ∧
      (∀ b : List Nat, b.length = 16 →
        xor_cipher.ecb_decrypt empty_key (xor_cipher.ecb_encrypt empty_key b) = b) ∧
      List.replicate 16 0 = xor_cipher.ecb_encrypt empty_key (List.replicate 16 0)) ∧
    _validate_pk xor_cipher empty_key (List.replicate 16 0) [1, 2, 3, 4]
        (vd_magic ++ [0, 0, 0, 0, 1, 2, 3, 4]) =
      (1, [0, 0, 0, 0, 0, 0, 0, 0, 0, 0, 0, 0, 1, 2, 3, 4]) :=
  ⟨⟨by decide, by decide, fun b _ => xor_cipher_inv empty_key b, by decide⟩,
   (validate_pk_spec xor_cipher empty_key (List.replicate 16 0) [1, 2, 3, 4]
      (vd_magic ++ [0, 0, 0, 0, 1, 2, 3, 4]) (by decide) (by decide)).2.2.2
      (fun b _ => xor_cipher_inv empty_key b) (List.replicate 16 0) (by decide) (by decide)
      (by decide)⟩

/-- C10 (media-key search), as the code behaves: on a session whose `mk` is unset
`_calc_mk` never returns success, whatever the MKB, the processing keys, the step
budget and the content of the uninitialised `len`: every MKB lookup goes through
`_record`, which returns NULL. -/
theorem calc_mk_never_succeeds (g : Gcrypt) (hex : Nat → String → List Nat) (aacs : AACS)
    (mkbfile : Option MKB) (len0 fuel : Nat) (aacs' : AACS) (hmk : aacs.mk = empty_key) :
    _calc_mk g hex aacs mkbfile len0 fuel ≠ Res.ret (1, aacs') := by
  intro h
  have h0 := calc_mk_returns_0 g hex aacs mkbfile len0 fuel 1 aacs' hmk h
  exact absurd h0 (by decide)

/-- Witness for C10: a well-formed MKB whose only (UV, c-value) pair validates under
the only processing key of the key database; `_calc_mk` returns 0 or reads through
`NULL + 4`, depending on the uninitialised `len`. -/
theorem calc_mk_never_succeeds_witness :
    (sess_pk.mk = empty_key ∧
      (_validate_pk xor_cipher (hex_zero 16 "00000000000000000000000000000000")
        ((mkb_sample.buf.drop 25).take 16) ((mkb_sample.buf.drop 17).take 4)
        ((mkb_sample.buf.drop 45).take 16)).1 = 1) ∧
    _calc_mk xor_cipher hex_zero sess_pk (some mkb_sample) 0 1 = Res.ret (0, sess_pk) ∧
    _calc_mk xor_cipher hex_zero sess_pk (some mkb_sample) 100 1 = Res.fault ∧
    ∀ len0 fuel aacs',
      _calc_mk xor_cipher hex_zero sess_pk (some mkb_sample) len0 fuel ≠ Res.ret (1, aacs') :=
  ⟨⟨rfl, by decide⟩, by decide, by decide,
   fun len0 fuel aacs' =>
     calc_mk_never_succeeds xor_cipher hex_zero sess_pk (some mkb_sample) len0 fuel aacs' rfl⟩

/-- C11 (VUK fast path). For a session with `vuk` all-zero and a non-zero 16-byte
`vid`, `_calc_vuk` returns 1 with `vuk[a] = AES-ECB-decrypt(mk, vid)[a] XOR vid[a]`
for all 16 bytes and every other field unchanged; the outcome is the same for every
drive and every key database (a NULL one included), so neither the host credentials
nor the drive are consulted. -/
theorem calc_vuk_fast_path (g : Gcrypt) (hex : Nat → String → List Nat) (mmc : Mmc)
    (aacs : AACS) (hvuk : aacs.vuk = empty_key) (hvid : aacs.vid ≠ empty_key)
    (hlen : aacs.vid.length = 16) :
    ∃ aacs', _calc_vuk g hex mmc aacs = Res.ret (1, aacs') ∧
      aacs'.vuk.length = 16 ∧
      (∀ a, a < 16 → aacs'.vuk.getD a 0 =
        (g.ecb_decrypt aacs.mk aacs.vid).getD a 0 ^^^ aacs.vid.getD a 0) ∧
      aacs'.mk = aacs.mk ∧ aacs'.vid = aacs.vid ∧ aacs'.pk = aacs.pk ∧
      aacs'.uks = aacs.uks ∧ aacs'.num_uks = aacs.num_uks ∧ aacs'.cf = aacs.cf ∧
      ∀ (mmc' : Mmc) (cf' : Option config_file_t),
        _calc_vuk g hex mmc' { aacs with cf := cf' } = Res.ret (1, { aacs' with cf := cf' }) := by
  refine ⟨_, calc_vuk_fast g hex mmc aacs hvuk hvid, ?_⟩
  simp only []
  refine ⟨?_, ?_, trivial, trivial, trivial, trivial, trivial, trivial, ?_⟩
  · simp only [xor_loop_length, g.ecb_decrypt_length, hlen]
  · exact fun a ha => vuk_xor_getD g aacs.mk aacs.vid hlen a ha
  · intro mmc' cf'
    exact calc_vuk_fast g hex mmc' { aacs with cf := cf' } hvuk hvid

/-- Witness for C11: a session with `mk` and `vid` set, on a drive that cannot be
opened. -/
theorem calc_vuk_fast_path_witness :
    (sess_vid.vuk = empty_key ∧ sess_vid.vid ≠ empty_key ∧ sess_vid.vid.length = 16) ∧
    ∃ aacs', _calc_vuk xor_cipher hex_len mmc_none sess_vid = Res.ret (1, aacs') ∧
      aacs'.vuk.length = 16 ∧
      (∀ a, a < 16 → aacs'.vuk.getD a 0 =
        (xor_cipher.ecb_decrypt sess_vid.mk sess_vid.vid).getD a 0 ^^^ sess_vid.vid.getD a 0) ∧
      aacs'.mk = sess_vid.mk ∧ aacs'.vid = sess_vid.vid :=
  ⟨⟨rfl, by decide, by decide⟩,
   match calc_vuk_fast_path xor_cipher hex_len mmc_none sess_vid rfl (by decide)
     (by decide) with
   | ⟨a, h1, h2, h3, h4, h5, _⟩ => ⟨a, h1, h2, h3, h4, h5⟩⟩

/-- C12 (unit-key file parse). For a session with `uks` unset and `vuk` non-zero and
a Unit Key file `F` of at least 4 bytes whose key count is readable, with `off` the
big-endian 32-bit integer at `F[0..4]` and `n` the big-endian 16-bit integer at
`F[off..off+2]`: `_calc_uks` returns `num_uks`, which is the least `i < n` for which
fewer than 16 bytes are readable at `off + 48 * (i + 1)`, or `n` when there is none;
for every `j < num_uks` the key `uks[j]` is the AES-ECB decryption under `vuk` of
the 16 bytes at `off + 48 * (j + 1)`; the other fields are unchanged. -/
theorem calc_uks_parse (g : Gcrypt) (null0 : Bool) (aacs : AACS) (F : List Nat)
    (off n : Nat) (huks : aacs.uks = none) (hvuk : aacs.vuk ≠ empty_key)
    (hF : 4 ≤ F.length) (hoff : off = MKINT_BE32 (F.take 4)) (hcnt : off + 2 ≤ F.length)
    (hn : n = MKINT_BE16 ((F.drop off).take 2)) :
    ∃ c aacs', _calc_uks g null0 aacs (some F) = (c, aacs') ∧
      aacs'.num_uks = c ∧ c ≤ n ∧
      (∀ j, j < c → off + 48 * (j + 1) + 16 ≤ F.length) ∧
      (c < n → ¬ off + 48 * (c + 1) + 16 ≤ F.length) ∧
      (∀ j, j < c → ∃ arr, aacs'.uks = some arr ∧
        unit_key arr j = g.ecb_decrypt aacs.vuk (spec_enc_uk F off j)) ∧
      aacs'.pk = aacs.pk ∧ aacs'.mk = aacs.mk ∧ aacs'.vid = aacs.vid ∧
      aacs'.vuk = aacs.vuk ∧ aacs'.cf = aacs.cf := by
  have heq := calc_uks_unfold g null0 aacs F huks hvuk hF (by rw [← hoff]; exact hcnt)
  rw [← hoff, ← hn] at heq
  have hsp := read_keys_spec g aacs.vuk F off n n 0 ((calloc16 null0 n).getD [])
    (Nat.zero_add n)
  rw [Nat.mul_zero, Nat.add_zero] at hsp
  refine ⟨_, _, heq, ?_⟩
  simp only []
  by_cases hn0 : 0 < n
  · rw [calloc16_pos null0 n hn0] at hsp ⊢
    obtain ⟨h1, _, h3, h4, h5, _⟩ := hsp (by simp [Nat.mul_comm])
    exact ⟨trivial, h1, fun j hj => h3 j (Nat.zero_le j) hj, h4,
      fun j hj => ⟨_, rfl, h5 j (Nat.zero_le j) hj⟩, trivial, trivial, trivial, trivial,
      trivial⟩
  · have hz : n = 0 := by omega
    subst hz
    simp only [read_keys]
    exact ⟨trivial, Nat.le_refl _, fun j hj => absurd hj (Nat.not_lt_zero j),
      fun h => absurd h (Nat.lt_irrefl _), fun j hj => absurd hj (Nat.not_lt_zero j),
      trivial, trivial, trivial, trivial, trivial⟩

/-- Witness for C12: the file `00 00 00 10`, filler, `00 02` at 0x10 and two 48-byte
entries holding `E0 .. EF` and `F0 .. FF` encrypted under `vuk`: `num_uks = 2` and the
keys are `E0 .. EF` and `F0 .. FF`. -/
theorem calc_uks_parse_witness :
    (sess_vuk.uks = none ∧ sess_vuk.vuk ≠ empty_key ∧ 4 ≤ ukf_sample.length ∧
      16 = MKINT_BE32 (ukf_sample.take 4) ∧ 16 + 2 ≤ ukf_sample.length ∧
      2 = MKINT_BE16 ((ukf_sample.drop 16).take 2)) ∧
    ∃ aacs' arr, _calc_uks xor_cipher false sess_vuk (some ukf_sample) = (2, aacs') ∧
      aacs'.num_uks = 2 ∧ aacs'.uks = some arr ∧
      unit_key arr 0 = uk_e ∧ unit_key arr 1 = uk_f := by
  have hl := ukf_sample_length
  have h4 : 4 ≤ ukf_sample.length := by rw [hl]; decide
  have h18 : 16 + 2 ≤ ukf_sample.length := by rw [hl]; decide
  have h32 : 16 = MKINT_BE32 (ukf_sample.take 4) := by decide
  have h16 : 2 = MKINT_BE16 ((ukf_sample.drop 16).take 2) := by decide
  have hv : sess_vuk.vuk ≠ empty_key := by decide
  refine ⟨⟨rfl, hv, h4, h32, h18, h16⟩, ?_⟩
  obtain ⟨c, aacs', h, hnum, hle, _, hshort, hkeys, _⟩ :=
    calc_uks_parse xor_cipher false sess_vuk ukf_sample 16 2 rfl hv h4 h32 h18 h16
  have hc : c = 2 := by
    rw [hl] at hshort
    by_contra hne
    exact hshort (by omega) (by omega)
  subst hc
  obtain ⟨arr, harr, hk0⟩ := hkeys 0 (by decide)
  obtain ⟨arr1, harr1, hk1⟩ := hkeys 1 (by decide)
  have he : arr1 = arr := Option.some.inj (harr1.symm.trans harr)
  rw [he] at hk1
  exact ⟨aacs', arr, h, hnum, harr, hk0.trans (by decide), hk1.trans (by decide)⟩

/-- C13 (config-entry matcher on a match). When the disc hash is computed and the
entry list holds an entry whose disc id equals the hash, every node before it having
a disc id that differs, `_find_config_entry` imports from that entry only: `mk`,
`vid` and `vuk` take the entry's value where it provides one and keep theirs
otherwise; `uks` becomes the entry's unit keys in list order and `num_uks` their
count. The result is `num_uks` when the entry has a unit key, otherwise 1 when it
provides `mk`, `vid` or `vuk`, otherwise 0. -/
theorem find_config_entry_match (hex : Nat → String → List Nat)
    (th : List Nat → List Nat) (aacs : AACS) (cf : config_file_t) (F : List Nat)
    (pre : List title_entry) (e : title_entry) (post : List title_entry) (d : String)
    (hcf : aacs.cf = some cf) (hl : cf.list = pre ++ e :: post)
    (hpre : ∀ x ∈ pre, ∃ dx, x.discid = some dx ∧ th F ≠ hex 20 dx)
    (hd : e.discid = some d) (hm : th F = hex 20 d) :
    ∃ r aacs', _find_config_entry hex th aacs (some F) = Res.ret (r, aacs') ∧
      aacs'.mk = (e.mek.map (hex 16)).getD aacs.mk ∧
      aacs'.vid = (e.vid.map (hex 16)).getD aacs.vid ∧
      aacs'.vuk = (e.vuk.map (hex 16)).getD aacs.vuk ∧
      aacs'.num_uks = (spec_entry_keys e.uk).length ∧
      aacs'.uks = (if spec_entry_keys e.uk = [] then none
        else some (((spec_entry_keys e.uk).map (hex 16)).flatten)) ∧
      aacs'.pk = aacs.pk ∧ aacs'.cf = aacs.cf ∧
      r = (if (spec_entry_keys e.uk).length ≠ 0 then (spec_entry_keys e.uk).length
        else if e.mek ≠ none ∨ e.vid ≠ none ∨ e.vuk ≠ none then 1 else 0) := by
  have hf : find_entry hex (th F) cf.list = some e := by
    rw [hl]
    exact find_entry_match hex (th F) pre e post d hpre hd hm
  exact ⟨_, _, find_config_entry_at hex th aacs cf F e hcf hf,
    rfl, rfl, rfl, rfl, rfl, rfl, rfl, rfl⟩

/-- Witness for C13: the key database holds a non-matching entry, the matching entry
(media key, volume unique key, two unit keys) and the end node. -/
theorem find_config_entry_match_witness :
    ((sess_cfg [entry_other, entry_match, entry_end]).cf =
        some { pkl := [], host_cert_list := [], list := [entry_other, entry_match, entry_end] } ∧
      entry_match.discid = some "BBB" ∧ hash_len [1, 2, 3] = hex_len 20 "BBB") ∧
    ∃ r aacs', _find_config_entry hex_len hash_len
        (sess_cfg [entry_other, entry_match, entry_end]) (some [1, 2, 3]) = Res.ret (r, aacs') ∧
      aacs'.mk = List.replicate 16 1 ∧ aacs'.vid = empty_key ∧
      aacs'.vuk = List.replicate 16 4 ∧ aacs'.num_uks = 2 ∧
      aacs'.uks = some (List.replicate 16 1 ++ List.replicate 16 2) ∧ r = 2 :=
  ⟨⟨rfl, rfl, by decide⟩,
   match find_config_entry_match hex_len hash_len
     (sess_cfg [entry_other, entry_match, entry_end])
     { pkl := [], host_cert_list := [], list := [entry_other, entry_match, entry_end] }
     [1, 2, 3] [entry_other] entry_match [entry_end] "BBB" rfl rfl
     (fun x hx => ⟨"AA", by rw [List.mem_singleton.mp hx]; rfl, by decide⟩) rfl
     (by decide) with
   | ⟨r, a, h, h1, h2, h3, h4, h5, _, _, h8⟩ =>
     ⟨r, a, h, h1.trans (by decide), h2.trans (by decide), h3.trans (by decide),
       h4.trans (by decide), h5.trans (by decide), h8.trans (by decide)⟩⟩

/-- C14 (bounded unit-key retry), as the code behaves: when the candidate under
`uks[0]` fails `_verify_ts` and the session holds at least two keys, every activation
of `_decrypt_unit` at index 0 re-enters `_decrypt_unit` at index 0 (the argument
`curr_uk++` has the old value), so no number of activations, `num_uks` included,
makes the call return: index 0 is attempted without bound and the recursion is not
well-founded. -/
theorem decrypt_unit_retry_unbounded (g : Gcrypt) (aacs : AACS) (uks in_buf : List Nat)
    (hu : aacs.uks = some uks) (hn : 2 ≤ aacs.num_uks)
    (hk : 16 * aacs.num_uks ≤ uks.length) (hb : in_buf.length = 6144)
    (hts : _verify_ts (spec_unit_out g (unit_key uks 0) in_buf) 6144 = 0) (fuel : Nat) :
    _decrypt_unit g aacs in_buf (fuel + 1) 0 = _decrypt_unit g aacs in_buf fuel 0 ∧
    _decrypt_unit g aacs in_buf fuel 0 = Res.nofuel ∧
    _decrypt_unit g aacs in_buf aacs.num_uks 0 = Res.nofuel := by
  have hg : 0 < usub 32 aacs.num_uks 1 := by
    unfold usub
    split <;> omega
  have hst := decrypt_unit_stuck g aacs uks in_buf hu (by omega) hb hts hg
  exact ⟨by rw [hst (fuel + 1), hst fuel], hst fuel, hst aacs.num_uks⟩

/-- Witness for C14: three unit keys, the first of which yields a candidate that
fails `_verify_ts`. -/
theorem decrypt_unit_retry_unbounded_witness :
    (sess_three.uks = some three_keys ∧ 2 ≤ sess_three.num_uks ∧
      16 * sess_three.num_uks ≤ three_keys.length ∧ unit_sync4.length = 6144 ∧
      _verify_ts (spec_unit_out xor_cipher (unit_key three_keys 0) unit_sync4) 6144 = 0) ∧
    _decrypt_unit xor_cipher sess_three unit_sync4 3 0 = Res.nofuel ∧
    _decrypt_unit xor_cipher sess_three unit_sync4 1000 0 = Res.nofuel :=
  ⟨⟨rfl, by decide, by decide, unit_sync4_length,
     by rw [three_keys_0]; exact sync4_key1_fails⟩,
   (decrypt_unit_retry_unbounded xor_cipher sess_three three_keys unit_sync4 rfl
     (by decide) (by decide) unit_sync4_length
     (by rw [three_keys_0]; exact sync4_key1_fails) 3).2.1,
   (decrypt_unit_retry_unbounded xor_cipher sess_three three_keys unit_sync4 rfl
     (by decide) (by decide) unit_sync4_length
     (by rw [three_keys_0]; exact sync4_key1_fails) 1000).2.1⟩

/-- C15 (UV / c-value pairing), as the code behaves: the loop
`for (a = 0; a < num_uvs; a++)` of `_calc_mk` is not bounded by the length of the
c-value payload. On an MKB whose record `0x04` holds two UV entries (payload at
offset 4, length 10) and whose record `0x05` holds one c-value (payload at offset 18,
length 16) the UV count is 2 while `min 2 (16 / 16) = 1`; given the payload pointers,
the loop goes on to pair 1 after pair 0 fails, reads its c-value at offset
`34 = 18 + 16`, which is the header and verification data of the next record, and
validates on it. Through the accessors of mkb.c, whose pointers derive from NULL,
the function itself reads through `NULL + 4` or tries no pair at all. -/
theorem calc_mk_pairs_uncapped :
    count_uvs mkb_two_uvs (Ptr.buf 4) 10 3 (Ptr.buf 4) 0 = Res.ret 2 ∧
    min 2 (16 / 16) = 1 ∧
    try_uvs_at xor_cipher mkb_two_uvs pk_two_uvs (Ptr.buf 18) (Ptr.buf 4) (Ptr.buf 38) 1 0
        empty_key =
      Res.ret (0, [128, 35, 69, 115, 137, 171, 205, 239, 0, 0, 0, 0, 1, 2, 3, 4]) ∧
    (Ptr.buf 18).add (1 * 16) = Ptr.buf 34 ∧
    (Ptr.buf 34).read mkb_two_uvs 16 = some ([0x81, 0, 0, 20] ++ List.replicate 12 0) ∧
    try_uvs_at xor_cipher mkb_two_uvs pk_two_uvs (Ptr.buf 18) (Ptr.buf 4) (Ptr.buf 38) 2 0
        empty_key =
      Res.ret (1, [1, 35, 69, 103, 137, 171, 205, 239, 0, 0, 0, 0, 5, 6, 7, 8]) ∧
    (∀ fuel, _calc_mk xor_cipher hex_zero sess_pk (some mkb_two_uvs) 100 (fuel + 1) =
      Res.fault) ∧
    _calc_mk xor_cipher hex_zero sess_pk (some mkb_two_uvs) 4 1 = Res.ret (0, sess_pk) :=
  ⟨by decide, by decide, by decide, rfl, by decide, by decide,
   fun fuel => calc_mk_null_uvs xor_cipher hex_zero sess_pk mkb_two_uvs fuel rfl,
   by decide⟩

/-- C16 (fields already set are authoritative). `_calc_mk` with `mk` non-zero,
`_calc_vuk` with `vuk` non-zero and `_calc_uks` with `uks` populated each return 1
and leave the whole session unchanged, whatever the MKB file, the drive, the key
database and the Unit Key file; `_calc_uks` with `uks` unset and `vuk` all-zero
returns 0 and leaves the session unchanged. -/
theorem calc_skips_when_set (g : Gcrypt) (hex : Nat → String → List Nat) (mmc : Mmc)
    (null0 : Bool) (aacs : AACS) (mkbfile : Option MKB) (len0 fuel : Nat)
    (file : Option (List Nat)) :
    (aacs.mk ≠ empty_key → _calc_mk g hex aacs mkbfile len0 fuel = Res.ret (1, aacs)) ∧
    (aacs.vuk ≠ empty_key → _calc_vuk g hex mmc aacs = Res.ret (1, aacs)) ∧
    (aacs.uks ≠ none → _calc_uks g null0 aacs file = (1, aacs)) ∧
    (aacs.uks = none → aacs.vuk = empty_key → _calc_uks g null0 aacs file = (0, aacs)) := by
  refine ⟨?_, ?_, ?_, ?_⟩
  · intro h
    unfold _calc_mk
    rw [if_pos h]
  · intro h
    unfold _calc_vuk
    rw [if_pos h]
  · intro h
    unfold _calc_uks
    rw [if_pos h]
  · intro h hv
    unfold _calc_uks
    rw [if_neg (fun hne => hne h), if_pos hv]

/-- Witness for C16: a session with every field set, and one with none. -/
theorem calc_skips_when_set_witness :
    (sess_full.mk ≠ empty_key ∧ sess_full.vuk ≠ empty_key ∧ sess_full.uks ≠ none ∧
      sess_pk.uks = none ∧ sess_pk.vuk = empty_key) ∧
    _calc_mk xor_cipher hex_zero sess_full (some mkb_sample) 7 0 = Res.ret (1, sess_full) ∧
    _calc_vuk xor_cipher hex_zero mmc_none sess_full = Res.ret (1, sess_full) ∧
    _calc_uks xor_cipher false sess_full (some ukf_sample) = (1, sess_full) ∧
    _calc_uks xor_cipher false sess_pk (some ukf_sample) = (0, sess_pk) :=
  ⟨⟨by decide, by decide, by decide, rfl, rfl⟩,
   (calc_skips_when_set xor_cipher hex_zero mmc_none false sess_full (some mkb_sample) 7 0
     (some ukf_sample)).1 (by decide),
   (calc_skips_when_set xor_cipher hex_zero mmc_none false sess_full (some mkb_sample) 7 0
     (some ukf_sample)).2.1 (by decide),
   (calc_skips_when_set xor_cipher hex_zero mmc_none false sess_full (some mkb_sample) 7 0
     (some ukf_sample)).2.2.1 (by decide),
   (calc_skips_when_set xor_cipher hex_zero mmc_none false sess_pk (some mkb_sample) 7 0
     (some ukf_sample)).2.2.2 rfl rfl⟩

/-- C17 (config-entry matcher without a match), as the code behaves: when the entry
list is empty or ends without a sentinel node and no disc id equals the hash, the
scan leaves the cursor NULL and the next statement reads `aacs->ce->entry.mek`
through it. -/
theorem find_config_entry_null_cursor (hex : Nat → String → List Nat)
    (th : List Nat → List Nat) (aacs : AACS) (cf : config_file_t) (F : List Nat)
    (hcf : aacs.cf = some cf)
    (hno : ∀ x ∈ cf.list, ∃ d, x.discid = some d ∧ th F ≠ hex 20 d) :
    _find_config_entry hex th aacs (some F) = Res.fault := by
  simp only [_find_config_entry, _calc_title_hash, hcf,
    find_entry_none hex (th F) cf.list hno]

/-- Witness for C17: an empty entry list, and a list of one non-matching entry
without an end node. -/
theorem find_config_entry_null_cursor_witness :
    _find_config_entry hex_len hash_len (sess_cfg []) (some [1, 2, 3]) = Res.fault ∧
    _find_config_entry hex_len hash_len (sess_cfg [entry_other]) (some [1, 2, 3]) =
      Res.fault :=
  ⟨find_config_entry_null_cursor hex_len hash_len (sess_cfg [])
     { pkl := [], host_cert_list := [], list := [] } [1, 2, 3] rfl
     (fun x hx => absurd hx (List.not_mem_nil x)),
   find_config_entry_null_cursor hex_len hash_len (sess_cfg [entry_other])
     { pkl := [], host_cert_list := [], list := [entry_other] } [1, 2, 3] rfl
     (fun x hx => ⟨"AA", by rw [List.mem_singleton.mp hx]; rfl, by decide⟩)⟩

/-- C18 (the record scan is never entered). For every MKB and every type, `_record`
returns NULL and leaves `*rec_len` as it was; the outcome is the same for any two
MKB buffers, the empty one included, so no byte of the buffer is read. -/
theorem record_never_scans (mkb mkb' : MKB) (type : Nat) (rec_len : Option Nat)
    (fuel : Nat) :
    _record mkb type rec_len (fuel + 1) = Res.ret (Ptr.null 0, rec_len) ∧
    _record mkb type rec_len (fuel + 1) = _record mkb' type rec_len (fuel + 1) ∧
    _record { size := 0, buf := [] } type rec_len (fuel + 1) =
      Res.ret (Ptr.null 0, rec_len) := by
  refine ⟨record_returns_null mkb type rec_len fuel, ?_,
    record_returns_null _ type rec_len fuel⟩
  rw [record_returns_null, record_returns_null]

/-- C19 (only even offsets are examined). For a buffer of `size >= 192`,
`_verify_ts` returns 1 exactly when some even `p` below 192 carries `0x47` at every
`p + 192 * k` below `size`, and 0 otherwise. Hence acceptance implies the reference
check of section 4.9, and a buffer with the sync byte at offset 4 of every packet is
accepted. -/
theorem verify_ts_even_offsets (buf : List Nat) (size : Nat) (hs : 192 ≤ size) :
    (_verify_ts buf size = 1 ↔
      ∃ p, p < 192 ∧ p % 2 = 0 ∧
        ∀ k, p + 192 * k < size → buf.getD (p + 192 * k) 0 = 0x47) ∧
    (_verify_ts buf size ≠ 1 → _verify_ts buf size = 0) ∧
    (_verify_ts buf size = 1 → spec_ts_ok buf size) ∧
    ((∀ k, 4 + 192 * k < size → buf.getD (4 + 192 * k) 0 = 0x47) →
      _verify_ts buf size = 1) := by
  have hiff := verify_ts_one_iff buf size
  refine ⟨?_, ?_, verify_ts_sound buf size, ?_⟩
  · rw [hiff]
    constructor
    · rintro (h | h)
      · omega
      · exact h
    · intro h
      exact Or.inr h
  · intro h
    rcases verify_ts_01 buf size with h0 | h1
    · exact h0
    · exact absurd h1 h
  · intro h
    exact hiff.mpr (Or.inr ⟨4, by omega, by omega, h⟩)

/-- Witness for C19: the unit with the sync byte at offset 4 of every packet is
accepted; the 6144-byte buffer with the sync byte at offset 1 only is rejected. -/
theorem verify_ts_even_offsets_witness :
    (192 ≤ 6144) ∧ _verify_ts unit_sync4 6144 = 1 ∧ _verify_ts ts_odd 6144 = 0 :=
  ⟨by decide,
   (verify_ts_even_offsets unit_sync4 6144 (by decide)).2.2.2 (by
     intro k hk
     rw [unit_sync4_getD _ hk]
     have h4 : (4 + 192 * k) % 192 = 4 := by omega
     have h0 : ¬ (4 + 192 * k = 0) := by omega
     rw [if_neg h0, if_pos h4]),
   (verify_ts_even_offsets ts_odd 6144 (by decide)).2.1 (by decide)⟩

/-- C20 (only the first unit key matters). For two sessions with the same `num_uks`
and the same first unit key, and any 6144-byte buffer: `aacs_decrypt_unit` has the
same outcome in both for every budget; whenever both calls return they return the
same value and leave the same buffer; and whenever the call returns 1 on an
encrypted unit the buffer is the decryption under `uks[0]` with the CPI bits
cleared. -/
theorem aacs_decrypt_unit_first_key_only (g : Gcrypt) (a1 a2 : AACS)
    (u1 u2 buf : List Nat) (h1 : a1.uks = some u1) (h2 : a2.uks = some u2)
    (hk : read_bytes u1 0 16 = read_bytes u2 0 16) (hn : a1.num_uks = a2.num_uks)
    (hb : buf.length = 6144) :
    (∀ fuel, aacs_decrypt_unit g a1 buf fuel = aacs_decrypt_unit g a2 buf fuel) ∧
    (∀ f1 f2 r1 r2, aacs_decrypt_unit g a1 buf f1 = Res.ret r1 →
      aacs_decrypt_unit g a2 buf f2 = Res.ret r2 → r1 = r2) ∧
    (∀ fuel b, buf.getD 0 0 &&& 0xC0 ≠ 0 →
      aacs_decrypt_unit g a1 buf fuel = Res.ret (1, b) →
      b = spec_clear_cpi (spec_unit_out g (unit_key u1 0) buf)) := by
  have hsame : ∀ fuel, aacs_decrypt_unit g a1 buf fuel = aacs_decrypt_unit g a2 buf fuel := by
    intro fuel
    simp only [aacs_decrypt_unit, decrypt_unit_first_key g a1 a2 u1 u2 buf h1 h2 hk hn fuel]
  refine ⟨hsame, ?_, ?_⟩
  · intro f1 f2 r1 r2 e1 e2
    have e1' := aacs_decrypt_unit_ret_first g a1 buf f1 r1 e1
    have e2' := aacs_decrypt_unit_ret_first g a2 buf f2 r2 e2
    rw [hsame 1, e2'] at e1'
    simp only [Res.ret.injEq] at e1'
    exact e1'.symm
  · intro fuel b he hret
    have hret1 := aacs_decrypt_unit_ret_first g a1 buf fuel (1, b) hret
    by_cases hl : 16 ≤ u1.length
    · have hstep := decrypt_unit_step g a1 u1 buf 0 h1 hl hb
      by_cases hv : _verify_ts (spec_unit_out g (unit_key u1 0) buf) 6144 = 1
      · have hacc := aacs_decrypt_unit_accept g a1 u1 buf 0 h1 hl hb he hv
        rw [hacc] at hret1
        simp only [Res.ret.injEq, Prod.mk.injEq, true_and] at hret1
        exact hret1.symm
      · have hv0 : _verify_ts (spec_unit_out g (unit_key u1 0) buf) 6144 = 0 := by
          rcases verify_ts_01 (spec_unit_out g (unit_key u1 0) buf) 6144 with h0 | h1'
          · exact h0
          · exact absurd h1' hv
        have hz : _decrypt_unit g a1 buf 0 0 = Res.nofuel := by simp [_decrypt_unit]
        rw [if_neg (fun hne => hne hv0), hz, Nat.zero_add] at hstep
        unfold aacs_decrypt_unit at hret1
        by_cases hg : 0 < usub 32 a1.num_uks 1
        · rw [if_pos hg] at hstep
          rw [if_neg he, hstep] at hret1
          cases hret1
        · rw [if_neg hg] at hstep
          rw [if_neg he, hstep] at hret1
          simp at hret1
    · unfold aacs_decrypt_unit at hret1
      rw [if_neg he] at hret1
      have hr : read_bytes u1 0 16 = none := by
        simp only [read_bytes]
        rw [if_neg (by omega)]
      simp only [_decrypt_unit, h1, Nat.zero_mul, Nat.zero_mod, hr] at hret1
      cases hret1

/-- Witness for C20: two sessions of three keys that share only the all-zero first
key decrypt the unit alike. -/
theorem aacs_decrypt_unit_first_key_only_witness :
    (sess_zf_a.uks = some keys_zero_first_a ∧ sess_zf_b.uks = some keys_zero_first_b ∧
      read_bytes keys_zero_first_a 0 16 = read_bytes keys_zero_first_b 0 16 ∧
      sess_zf_a.num_uks = sess_zf_b.num_uks ∧ unit_sync4.length = 6144 ∧
      keys_zero_first_a ≠ keys_zero_first_b) ∧
    aacs_decrypt_unit xor_cipher sess_zf_a unit_sync4 1 =
      aacs_decrypt_unit xor_cipher sess_zf_b unit_sync4 1 ∧
    aacs_decrypt_unit xor_cipher sess_zf_a unit_sync4 1 =
      Res.ret (1, spec_clear_cpi
        (spec_unit_out xor_cipher (unit_key keys_zero_first_a 0) unit_sync4)) :=
  ⟨⟨rfl, rfl, by rw [zf_a_first, zf_b_first], rfl, unit_sync4_length, by decide⟩,
   (aacs_decrypt_unit_first_key_only xor_cipher sess_zf_a sess_zf_b keys_zero_first_a
     keys_zero_first_b unit_sync4 rfl rfl (by rw [zf_a_first, zf_b_first]) rfl
     unit_sync4_length).1 1,
   aacs_decrypt_unit_accept xor_cipher sess_zf_a keys_zero_first_a unit_sync4 0 rfl
     (by decide) unit_sync4_length unit_sync4_encrypted
     (by
       have hk : unit_key keys_zero_first_a 0 = List.replicate 16 0 := by decide
       rw [hk]
       exact sync4_zero_key_passes)⟩

/-- C21 (uks populated implies at least one key), as the code behaves: when the
Unit Key file declares `n` keys and the read of the first is short, or declares none
and `calloc(0, 16)` returns a pointer, `_calc_uks` returns 0 with `num_uks = 0` and
leaves `uks` pointing to the `16 * n` zero bytes it allocated. A second `_calc_uks`
call then returns 1 at its first test, whatever the file; and `aacs_open`, when the
key database provided `mk` and `vuk` for the disc, returns that session with
`num_uks = 0` as initialised. -/
theorem calc_uks_keeps_empty_array (g : Gcrypt) (null0 : Bool) (aacs : AACS) (F : List Nat)
    (off n : Nat) (huks : aacs.uks = none) (hvuk : aacs.vuk ≠ empty_key)
    (hF : 4 ≤ F.length) (hoff : off = MKINT_BE32 (F.take 4)) (hcnt : off + 2 ≤ F.length)
    (hn : n = MKINT_BE16 ((F.drop off).take 2)) (halloc : 0 < n ∨ null0 = false)
    (hshort : 0 < n → ¬ off + 48 + 16 ≤ F.length) :
    ∃ aacs', _calc_uks g null0 aacs (some F) = (0, aacs') ∧
      aacs'.uks = some (List.replicate (n * 16) 0) ∧ aacs'.num_uks = 0 ∧
      (∀ file, _calc_uks g null0 aacs' file = (1, aacs')) ∧
      ∀ (hex : Nat → String → List Nat) (mmc : Mmc) (th : List Nat → List Nat)
        (cf : config_file_t) (mkbfile : Option MKB) (len0 fuel found : Nat),
        _find_config_entry hex th
          { pk := empty_key, mk := empty_key, vuk := empty_key, vid := empty_key,
            uks := none, num_uks := 0, cf := some cf } (some F) = Res.ret (found, aacs) →
        found ≠ 0 → aacs.mk ≠ empty_key →
        aacs_open g hex mmc th null0 (some cf) (some F) mkbfile len0 fuel =
          Res.ret (some aacs') := by
  have h0 := calc_uks_none_read g null0 aacs F off n huks hvuk hF hoff hcnt hn halloc hshort
  refine ⟨_, h0, rfl, rfl, ?_, ?_⟩
  · intro file
    unfold _calc_uks
    rw [if_pos (by simp)]
  · intro hex mmc th cf mkbfile len0 fuel found hfind hfound hmk
    exact aacs_open_second_pass g hex mmc th null0 cf (some F) mkbfile len0 fuel found aacs _
      hfind hfound h0 hmk hvuk (by simp)

/-- Witness for C21: the key database provides `mk` and `vuk` for the disc, the
Unit Key file declares one key and ends after the count; `aacs_open` returns a
session with an allocated key array and `num_uks = 0`. -/
theorem calc_uks_keeps_empty_array_witness :
    (({ sess_no_keys with uks := none } : AACS).vuk ≠ empty_key ∧ 4 ≤ ukf_cut.length ∧
      4 = MKINT_BE32 (ukf_cut.take 4) ∧ 4 + 2 ≤ ukf_cut.length ∧
      1 = MKINT_BE16 ((ukf_cut.drop 4).take 2) ∧ ¬ 4 + 48 + 16 ≤ ukf_cut.length) ∧
    _calc_uks xor_cipher true { sess_no_keys with uks := none } (some ukf_cut) =
      (0, sess_no_keys) ∧
    sess_no_keys.uks = some (List.replicate 16 0) ∧ sess_no_keys.num_uks = 0 ∧
    (∀ file, _calc_uks xor_cipher true sess_no_keys file = (1, sess_no_keys)) ∧
    ∀ fuel, aacs_open xor_cipher hex_len mmc_none hash_len true (some cfg_mk_vuk)
      (some ukf_cut) none 0 fuel = Res.ret (some sess_no_keys) := by
  obtain ⟨a', h0, _, _, hsec, hopen⟩ :=
    calc_uks_keeps_empty_array xor_cipher true { sess_no_keys with uks := none } ukf_cut 4 1
      rfl (by decide) (by decide) (by decide) (by decide) (by decide) (Or.inl (by decide))
      (fun _ => by decide)
  have hc : _calc_uks xor_cipher true { sess_no_keys with uks := none } (some ukf_cut) =
      (0, sess_no_keys) := by decide
  have he : a' = sess_no_keys := by
    rw [hc] at h0
    exact (Prod.mk.inj h0).2.symm
  rw [he] at hsec hopen
  exact ⟨⟨by decide, by decide, by decide, by decide, by decide, by decide⟩, hc, rfl, rfl,
    hsec, fun fuel => hopen hex_len mmc_none hash_len cfg_mk_vuk none 0 fuel 1 (by decide)
      (by decide) (by decide)⟩

end Aacs
